import Mathlib

/-!
# Verification of the gopy front end (lexer + parser)

A shallow embedding of the tokenizer (`src/lexer/lexer.go`) and of the
recursive-descent / Pratt parser (`src/unnamed/part_000`, package `parser`)
of the gopy repository, together with theorems settling the frozen claims
about them.

Modelling conventions:
* Go strings indexed byte by byte are modelled as `List Char`; all inputs
  relevant to the claims are ASCII, where the two views coincide.
* A Go runtime panic (out-of-range index) is modelled as the error value
  `LexErr.crash` in the lexer and as `none` in the parser.
* Loops are modelled as fuel-indexed structural recursion; exhausting the
  fuel yields `LexErr.fuelOut` (lexer) respectively `none` (parser).  The
  fuel supplied by the entry points is large enough for every terminating
  execution of the Go code, so `.ok`/`some` results coincide with normal
  Go returns.
* Go integer fields that are provably non-negative (indices, line/column
  counters) are `Nat`; the parser's `indentLevel` is kept as `Int` since
  the code decrements it.
-/

namespace Gopy

/-- `lexer.TokenType` (`src/lexer/lexer.go` lines 12-67): a closed
enumeration of the Go string constants.  `EMPTY` is the zero value `""` of
the Go string type, produced by `lexer.Token{}`. -/
inductive TokenType where
  | ILLEGAL | EOF | NL | IDENT
  | IF | ELIF | ELSE | WHILE | FOR | IN | PRINT | INT | STR | AND | OR
  | STRING | NUM
  | LEFTPAREN | RIGHTPAREN | COLON | EQUALS | COMMA | INDENT
  | ADD | SUB | MULT | DIV | MOD | POW | NOT
  | ADDEQ | SUBEQ | MULTEQ | DIVEQ | MODEQ | POWEQ
  | LESS | LESSEQ | GREAT | GREATEQ | EQ | NOTEQ
  | EMPTY
  deriving DecidableEq, Repr

/-- The literal string value of each `TokenType` constant in the Go source. -/
def TokenType.str : TokenType → String
  | .ILLEGAL => "ILLEGAL"
  | .EOF => "EOF"
  | .NL => "NEWLINE"
  | .IDENT => "IDENT"
  | .IF => "IF"
  | .ELIF => "ELIF"
  | .ELSE => "ELSE"
  | .WHILE => "WHILE"
  | .FOR => "FOR"
  | .IN => "IN"
  | .PRINT => "PRINT"
  | .INT => "INT"
  | .STR => "STR"
  | .AND => "AND"
  | .OR => "OR"
  | .STRING => "STRING"
  | .NUM => "NUM"
  | .LEFTPAREN => "("
  | .RIGHTPAREN => ")"
  | .COLON => ":"
  | .EQUALS => "="
  | .COMMA => ","
  | .INDENT => "INDENT"
  | .ADD => "+"
  | .SUB => "-"
  | .MULT => "*"
  | .DIV => "/"
  | .MOD => "%"
  | .POW => "^"
  | .NOT => "!"
  | .ADDEQ => "+="
  | .SUBEQ => "-="
  | .MULTEQ => "*="
  | .DIVEQ => "/="
  | .MODEQ => "%="
  | .POWEQ => "^="
  | .LESS => "<"
  | .LESSEQ => "<="
  | .GREAT => ">"
  | .GREATEQ => ">="
  | .EQ => "=="
  | .NOTEQ => "!="
  | .EMPTY => ""

/-- `lexer.tokenKey` (lines 69-76).  The Go values `0` (zero value) and
`-1` (assigned on whitespace / new line) are both modelled as `none0`:
the code only ever compares the field against `TokenKeyword`, `TokenIdent`
(and assigns the others), so the two are indistinguishable. -/
inductive TokenKey where
  | none0 | keyword | punct | ident | int | string
  deriving DecidableEq, Repr

/-- `lexer.tokenPos` (lines 84-87): `(row, col)`. -/
structure TokenPos where
  row : Nat
  col : Nat
  deriving DecidableEq, Repr

/-- `lexer.Token` (lines 78-82). -/
structure Token where
  name : TokenType
  val : String
  pos : TokenPos
  deriving DecidableEq, Repr

/-- `Token.GetCol` (lines 93-95). -/
def Token.getCol (t : Token) : Nat := t.pos.col

/-- Lexer-side runtime outcomes that are not normal returns: `crash` is a
Go panic (index out of range); `fuelOut` marks exhausted modelling fuel
and is unreachable for the fuel used by the entry points. -/
inductive LexErr where
  | crash | fuelOut
  deriving DecidableEq, Repr

/-- `lexer.Lexer` (lines 97-105) minus the `current` field, which is a
scratch variable always set from `input[index]` immediately before use and
is passed explicitly to `lexStep` here. -/
structure LexSt where
  index : Nat
  input : List Char
  line : Nat
  column : Nat
  currentType : TokenKey
  tokens : List Token
  deriving Repr

/-- `(*Lexer).peek` (lines 244-249).  `ok none` is the Go `(' ', error)`
return at end of input; `error crash` is the panic when `index+1` exceeds
the input length (reachable from `lexString`). -/
def LexSt.peekc (l : LexSt) : Except LexErr (Option Char) :=
  if l.index + 1 ≠ l.input.length then
    match l.input.get? (l.index + 1) with
    | some c => .ok (some c)
    | none => .error .crash
  else
    .ok none

/-- Go slice expression `input[a:b]`; `none` models the panic when the
bounds are invalid. -/
def goSlice (input : List Char) (a b : Nat) : Option String :=
  if a ≤ b ∧ b ≤ input.length then
    some ((input.drop a).take (b - a)).asString
  else
    none

/-- `(*Lexer).lexTab` (lines 251-261): emit an INDENT token and advance
the column by 3 more (the loop footer adds the fourth). -/
def LexSt.lexTab (l : LexSt) : LexSt :=
  { l with
    column := l.column + 3
    tokens := l.tokens ++ [⟨.INDENT, "INDENT", ⟨l.line, l.column⟩⟩] }

/-- `(*Lexer).lexPunct` (lines 263-273). -/
def LexSt.lexPunct (l : LexSt) (name : TokenType) (val : String) : LexSt :=
  { l with
    currentType := .punct
    tokens := l.tokens ++ [⟨name, val, ⟨l.line, l.column⟩⟩] }

/-- `(*Lexer).lexNL` (lines 403-410). -/
def LexSt.lexNL (l : LexSt) : LexSt :=
  { l with tokens := l.tokens ++ [⟨.NL, "NEWLINE", ⟨l.line, l.column⟩⟩] }

/-- The loop of `(*Lexer).nextLine` (line 416):
`for l.input[l.index] != '\n' && l.index < len(l.input)-1 { l.index++ }`.
The subscript is evaluated before the bound check, so an out-of-range
index panics. -/
def nextLineLoop : Nat → List Char → Nat → Except LexErr Nat
  | 0, _, _ => .error .fuelOut
  | fuel + 1, input, idx =>
    match input.get? idx with
    | none => .error .crash
    | some c =>
      if c ≠ '\n' ∧ idx < input.length - 1 then
        nextLineLoop fuel input (idx + 1)
      else
        .ok idx

/-- `(*Lexer).nextLine` (lines 412-418). -/
def LexSt.nextLine (l : LexSt) : Except LexErr LexSt :=
  match nextLineLoop (l.input.length + 2) l.input l.index with
  | .error e => .error e
  | .ok idx =>
    .ok { l with line := l.line + 1, column := 0, currentType := .none0, index := idx }

/-- The reserved-word table of `lexText` (lines 276-288) combined with the
`switch` on the matched word (lines 310-337): the list entries are
pairwise distinct, so the Go loop is equivalent to this single lookup. -/
def keywordFor (s : String) : Option TokenType :=
  if s = "if" then some .IF
  else if s = "elif" then some .ELIF
  else if s = "else" then some .ELSE
  else if s = "while" then some .WHILE
  else if s = "for" then some .FOR
  else if s = "in" then some .IN
  else if s = "print" then some .PRINT
  else if s = "int" then some .INT
  else if s = "str" then some .STR
  else if s = "and" then some .AND
  else if s = "or" then some .OR
  else none

/-- The branch of `lexText` (lines 290-309) that selects or builds the
token to extend, popping the most recent token when continuing one.
`none` is the Go panic on `l.tokens[len-1]` with an empty token list. -/
def lexTextCore (l : LexSt) (val : String) : Option (Token × LexSt) :=
  if l.currentType = TokenKey.keyword then
    match l.tokens.getLast? with
    | none => none
    | some t =>
      some ((⟨.IDENT, t.val ++ val, t.pos⟩ : Token),
            { l with currentType := .ident, tokens := l.tokens.dropLast })
  else if l.currentType = TokenKey.ident then
    match l.tokens.getLast? with
    | none => none
    | some t =>
      some (({ t with val := t.val ++ val } : Token),
            { l with tokens := l.tokens.dropLast })
  else
    some ((⟨.IDENT, val, ⟨l.line, l.column⟩⟩ : Token),
          { l with currentType := .ident })

/-- `(*Lexer).lexText` (lines 275-339): extend or start a word token,
re-check it against the reserved-word table, and append it. -/
def LexSt.lexText (l : LexSt) (val : String) : Except LexErr LexSt :=
  match lexTextCore l val with
  | none => .error .crash
  | some (tok, l') =>
    let tok' : Token :=
      match keywordFor tok.val with
      | some k => { tok with name := k }
      | none => tok
    .ok { l' with tokens := l'.tokens ++ [tok'] }

/-- The scan loop of `lexString` (lines 357-362):
`for next != '"' { l.index++; if next, err = l.peek(); err != nil { break } }`.
Returns the final value of `l.index`. -/
def stringLoop : Nat → List Char → Nat → Char → Except LexErr Nat
  | 0, _, _, _ => .error .fuelOut
  | fuel + 1, input, idx, next =>
    if next = '"' then .ok idx
    else
      let i := idx + 1
      if i + 1 = input.length then .ok i
      else
        match input.get? (i + 1) with
        | some c => stringLoop fuel input i c
        | none => .error .crash

/-- `(*Lexer).lexString` (lines 341-371). -/
def LexSt.lexString (l : LexSt) : Except LexErr LexSt :=
  let l := { l with index := l.index + 1, currentType := TokenKey.string }
  let start := l.index
  match l.peekc with
  | .error e => .error e
  | .ok none =>
    .ok { l with tokens := l.tokens ++ [⟨.ILLEGAL, "", ⟨l.line, l.column⟩⟩] }
  | .ok (some next) =>
    match stringLoop (l.input.length + 2) l.input l.index next with
    | .error e => .error e
    | .ok idx =>
      match goSlice l.input start (idx + 1) with
      | none => .error .crash
      | some s =>
        .ok { l with
              index := idx + 1
              tokens := l.tokens ++ [⟨.STRING, s, ⟨l.line, l.column⟩⟩] }

/-- The scan loop of `lexInt` (lines 388-393):
`for unicode.IsDigit(next) { l.index++; if next, err = l.peek(); err != nil { break } }`. -/
def intLoop : Nat → List Char → Nat → Char → Except LexErr Nat
  | 0, _, _, _ => .error .fuelOut
  | fuel + 1, input, idx, next =>
    if next.isDigit then
      let i := idx + 1
      if i + 1 = input.length then .ok i
      else
        match input.get? (i + 1) with
        | some c => intLoop fuel input i c
        | none => .error .crash
    else .ok idx

/-- `(*Lexer).lexInt` (lines 373-401). -/
def LexSt.lexInt (l : LexSt) : Except LexErr LexSt :=
  let start := l.index
  let l := { l with currentType := TokenKey.int }
  match l.peekc with
  | .error e => .error e
  | .ok none =>
    match l.input.get? start with
    | none => .error .crash
    | some c =>
      .ok { l with tokens := l.tokens ++ [⟨.NUM, String.singleton c, ⟨l.line, l.column⟩⟩] }
  | .ok (some next) =>
    match intLoop (l.input.length + 2) l.input l.index next with
    | .error e => .error e
    | .ok idx =>
      match goSlice l.input start (idx + 1) with
      | none => .error .crash
      | some s =>
        .ok { l with
              index := idx
              tokens := l.tokens ++ [⟨.NUM, s, ⟨l.line, l.column⟩⟩] }

/-- `unicode.IsSpace` restricted to the one-byte code points the lexer can
see (Latin-1 range: space, tab, newline, vertical tab, form feed,
carriage return, NEL, NBSP). -/
def goIsSpace (c : Char) : Bool :=
  c = ' ' ∨ c = '\t' ∨ c = '\n' ∨ c = (Char.ofNat 11) ∨ c = (Char.ofNat 12) ∨
  c = (Char.ofNat 13) ∨ c = (Char.ofNat 133) ∨ c = (Char.ofNat 160)

/-- `unicode.IsDigit` restricted to one-byte code points: ASCII `0`-`9`. -/
def goIsDigit (c : Char) : Bool := c.isDigit

/-- `unicode.IsLetter` restricted to ASCII (the claims use ASCII input
only; Latin-1 letters above 0x7F would also satisfy the Go predicate but
never reach the lexer in any statement proved below). -/
def goIsLetter (c : Char) : Bool := c.isAlpha

/-- The shared shape of the two-character-operator cases of the `lex`
switch (e.g. lines 134-141 for `=`): peek ahead, and on a following `=`
emit the compound token and consume the second character's position
advance, otherwise emit the single-character token.  The nine Go case
bodies for `=` `<` `>` `+` `-` `*` `/` `^` `%` are verbatim instances of
this shape (the `!` case differs: it omits the advance). -/
def LexSt.lexOpEq (l : LexSt) (nameEq : TokenType) (valEq : String)
    (name1 : TokenType) (val1 : String) : Except LexErr LexSt :=
  match l.peekc with
  | .error e => .error e
  | .ok r =>
    if r = some '=' then
      .ok { l.lexPunct nameEq valEq with index := l.index + 1, column := l.column + 1 }
    else .ok (l.lexPunct name1 val1)

/-- The nine two-character-operator cases of the `switch l.current`
(`=` `<` `>` `+` `-` `*` `/` `^` `%`, lines 134-157 and 170-217), whose
bodies are verbatim instances of `lexOpEq`. -/
inductive OpEqCase where
  | eqC | lessC | greatC | addC | subC | multC | divC | powC | modC
  deriving DecidableEq, Repr

/-- Compound-operator token kind of a two-character case. -/
def OpEqCase.nameEq : OpEqCase → TokenType
  | .eqC => .EQ
  | .lessC => .LESSEQ
  | .greatC => .GREATEQ
  | .addC => .ADDEQ
  | .subC => .SUBEQ
  | .multC => .MULTEQ
  | .divC => .DIVEQ
  | .powC => .POWEQ
  | .modC => .MODEQ

/-- Compound-operator token text of a two-character case. -/
def OpEqCase.valEq : OpEqCase → String
  | .eqC => "=="
  | .lessC => "<="
  | .greatC => ">="
  | .addC => "+="
  | .subC => "-="
  | .multC => "*="
  | .divC => "/="
  | .powC => "^="
  | .modC => "%="

/-- Single-character token kind of a two-character case. -/
def OpEqCase.name1 : OpEqCase → TokenType
  | .eqC => .EQUALS
  | .lessC => .LESS
  | .greatC => .GREAT
  | .addC => .ADD
  | .subC => .SUB
  | .multC => .MULT
  | .divC => .DIV
  | .powC => .POW
  | .modC => .MOD

/-- Single-character token text of a two-character case. -/
def OpEqCase.val1 : OpEqCase → String
  | .eqC => "="
  | .lessC => "<"
  | .greatC => ">"
  | .addC => "+"
  | .subC => "-"
  | .multC => "*"
  | .divC => "/"
  | .powC => "^"
  | .modC => "%"

/-- The four single-character punctuation cases (`:` `(` `)` `,`,
lines 164-169 and 218-219). -/
inductive PunctCase where
  | colonC | lparenC | rparenC | commaC
  deriving DecidableEq, Repr

/-- Token kind of a single-character punctuation case. -/
def PunctCase.name : PunctCase → TokenType
  | .colonC => .COLON
  | .lparenC => .LEFTPAREN
  | .rparenC => .RIGHTPAREN
  | .commaC => .COMMA

/-- Token text of a single-character punctuation case. -/
def PunctCase.val : PunctCase → String
  | .colonC => ":"
  | .lparenC => "("
  | .rparenC => ")"
  | .commaC => ","

/-- The action selected by the `switch l.current` of the scan loop
(lines 128-238), one constructor per distinct case shape; `bang` is the
deviating `!` case. -/
inductive LexAct where
  | nl | tab
  | opEq (o : OpEqCase)
  | bang
  | punct1 (q : PunctCase)
  | str
  | spaceSkip | comment | digit | letter | illegal
  deriving Repr

/-- The dispatch of the `switch l.current` (lines 128-238): which case
body runs for the character just read.  The `default` branch orders its
tests exactly as lines 222-237 do (whitespace, then `\n`/`#`, then
digit, then letter/underscore, else illegal). -/
def charAct (c : Char) : LexAct :=
  if c = '\n' then .nl
  else if c = '\t' then .tab
  else if c = '=' then .opEq .eqC
  else if c = '<' then .opEq .lessC
  else if c = '>' then .opEq .greatC
  else if c = '!' then .bang
  else if c = ':' then .punct1 .colonC
  else if c = '(' then .punct1 .lparenC
  else if c = ')' then .punct1 .rparenC
  else if c = '+' then .opEq .addC
  else if c = '-' then .opEq .subC
  else if c = '*' then .opEq .multC
  else if c = '/' then .opEq .divC
  else if c = '^' then .opEq .powC
  else if c = '%' then .opEq .modC
  else if c = ',' then .punct1 .commaC
  else if c = '\x22' then .str
  else if goIsSpace c then .spaceSkip
  else if c = '\n' ∨ c = '#' then .comment
  else if goIsDigit c then .digit
  else if goIsLetter c ∨ c = '_' then .letter
  else .illegal

/-- The case bodies of the `switch l.current` (lines 128-238), one per
dispatch action, with `c` the character just read.  The `!` case
(lines 158-163) is the one two-character case that does not advance
`index`/`column` after recognising `!=`. -/
def runLexAct (l : LexSt) (c : Char) : LexAct → Except LexErr LexSt
  | .nl => (l.lexNL).nextLine
  | .tab => .ok l.lexTab
  | .opEq o => l.lexOpEq o.nameEq o.valEq o.name1 o.val1
  | .bang =>
    match l.peekc with
    | .error e => .error e
    | .ok r =>
      if r = some '=' then .ok (l.lexPunct .NOTEQ "!=")
      else .ok (l.lexPunct .NOT "!")
  | .punct1 q => .ok (l.lexPunct q.name q.val)
  | .str => l.lexString
  | .spaceSkip => .ok { l with currentType := .none0 }
  | .comment => l.nextLine
  | .digit =>
    if l.currentType = TokenKey.ident ∨ l.currentType = TokenKey.keyword then
      l.lexText (String.singleton c)
    else
      l.lexInt
  | .letter => l.lexText (String.singleton c)
  | .illegal => .ok { l with tokens := l.tokens ++ [⟨.ILLEGAL, "nil", ⟨0, 0⟩⟩] }

/-- One iteration body of the `lex` scan loop: dispatch on the character
just read and run the selected case body. -/
def lexStep (l : LexSt) (c : Char) : Except LexErr LexSt :=
  runLexAct l c (charAct c)

/-- The `lex` driver loop (lines 125-242): a do-while that reads
`l.input[l.index]` (panicking when out of range, e.g. on empty input),
dispatches on it, then advances `index` and `column` and repeats while
`index < len(input)`. -/
def lexLoop : Nat → LexSt → Except LexErr LexSt
  | 0, _ => .error .fuelOut
  | fuel + 1, l =>
    match l.input.get? l.index with
    | none => .error .crash
    | some c =>
      match lexStep l c with
      | .error e => .error e
      | .ok l1 =>
        if l1.index + 1 < l1.input.length then
          lexLoop fuel { l1 with index := l1.index + 1, column := l1.column + 1 }
        else .ok { l1 with index := l1.index + 1, column := l1.column + 1 }

/-- `lexer.StartLex` (lines 107-123): run the scan loop from a fresh state
and append the single end-of-input token. -/
def startLex (input : List Char) : Except LexErr (List Token) :=
  match lexLoop (input.length + 2)
      { index := 0, input := input, line := 1, column := 0
        currentType := .none0, tokens := [] } with
  | .error e => .error e
  | .ok l' => .ok (l'.tokens ++ [⟨.EOF, "", ⟨l'.line + 1, 0⟩⟩])

/-! ## Syntax tree model (`src/ast/ast.go`)

Go interface values of type `ast.Expr` may be `nil`; this is the `nilE`
constructor.  A `nil *ast.VarStmt` returned by `parseVarStmt` is a typed
nil: wrapped in the `ast.Stmt` interface it is *not* `nil`, so `parse`
still appends it — constructor `nilVar`.  A `nil` `[]ast.Expr` slice and
an empty slice are both `[]` (only their length is ever observed). -/

mutual
/-- Expression nodes (`ast.Identifier`, `ast.IntLiteral`, `ast.StrLiteral`,
`ast.PrefixExpr`, `ast.InfixExpr`, `ast.IfExpr`, `ast.WhileExpr`,
`ast.CallExpr`), plus `nilE` for a nil `ast.Expr` interface value. -/
inductive Expr where
  | nilE : Expr
  | identE (tok : Token) (val : String) : Expr
  | intLit (tok : Token) (value : Int) : Expr
  | strLit (tok : Token) (value : String) : Expr
  | preE (tok : Token) (op : String) (operand : Expr) : Expr
  | binE (tok : Token) (op : String) (left : Expr) (right : Expr) : Expr
  | ifE (tok : Token) (cond : Expr) (pass : Block) (fail : Option Block) : Expr
  | whileE (tok : Token) (cond : Expr) (body : Block) : Expr
  | callE (tok : Token) (fn : Expr) (args : List Expr) : Expr

/-- `ast.BlockStmt`. -/
inductive Block where
  | mk (tok : Token) (stmts : List Stmt) : Block

/-- Statement nodes (`ast.VarStmt`, `ast.ExprStmt`); `nilVar` is the typed
nil `*ast.VarStmt` produced when `parseVarStmt` fails. -/
inductive Stmt where
  | varStmt (tok : Token) (identT : Expr) (value : Expr) : Stmt
  | nilVar : Stmt
  | exprStmt (tok : Token) (e : Expr) : Stmt
end

/-! ## Parser model (`src/unnamed/part_000`, package `parser`) -/

/-- The precedence constants (lines 14-24).  `pAND = 8` is defined by the
source but the `lexer.AND` token is mapped to `pGTLT` in the precedence
table, exactly as in the Go file. -/
def pLOWEST : Nat := 1
def pEQUALS : Nat := 2
def pGTLT : Nat := 3
def pSUM : Nat := 4
def pPRODUCT : Nat := 5
def pPREFIX : Nat := 6
def pCALL : Nat := 7
def pAND : Nat := 8

/-- The `precedence` map (lines 25-43).  Note that it contains `LESS` and
`OR` even though `registerFixes` registers no infix handler for them. -/
def precedenceMap : TokenType → Option Nat
  | .EQ => some pEQUALS
  | .NOTEQ => some pEQUALS
  | .LESS => some pGTLT
  | .LESSEQ => some pGTLT
  | .GREAT => some pGTLT
  | .GREATEQ => some pGTLT
  | .AND => some pGTLT
  | .OR => some pGTLT
  | .ADD => some pSUM
  | .ADDEQ => some pSUM
  | .SUB => some pSUM
  | .SUBEQ => some pSUM
  | .DIV => some pPRODUCT
  | .DIVEQ => some pPRODUCT
  | .MULT => some pPRODUCT
  | .MULTEQ => some pPRODUCT
  | .LEFTPAREN => some pCALL
  | _ => none

/-- Tags for the prefix handlers registered in `registerFixes`
(lines 100-109); `none` for token kinds with no registered handler. -/
inductive PreKind where
  | identH | intLitH | strLitH | preOpH | groupingH | ifH | whileH
  deriving DecidableEq, Repr

/-- The `prefixParseFns` map built by `registerFixes` (lines 100-109). -/
def prefixFnFor : TokenType → Option PreKind
  | .IDENT => some .identH
  | .NUM => some .intLitH
  | .STRING => some .strLitH
  | .SUB => some .preOpH
  | .LEFTPAREN => some .groupingH
  | .IF => some .ifH
  | .WHILE => some .whileH
  | .STR => some .strLitH
  | .INT => some .intLitH
  | _ => none

/-- Tags for the infix handlers registered in `registerFixes`
(lines 111-127). -/
inductive InKind where
  | binOpH | callH
  deriving DecidableEq, Repr

/-- The `infixParseFns` map built by `registerFixes` (lines 111-127).
Faithful to the source: `LESS`, `OR`, `MOD`, `MODEQ`, `POW`, `POWEQ` have
no entry (in particular `lexer.LESS` is absent although the precedence
table contains it). -/
def infixFnFor : TokenType → Option InKind
  | .EQ => some .binOpH
  | .NOTEQ => some .binOpH
  | .ADD => some .binOpH
  | .ADDEQ => some .binOpH
  | .SUB => some .binOpH
  | .SUBEQ => some .binOpH
  | .DIV => some .binOpH
  | .DIVEQ => some .binOpH
  | .MULT => some .binOpH
  | .MULTEQ => some .binOpH
  | .GREAT => some .binOpH
  | .GREATEQ => some .binOpH
  | .LESSEQ => some .binOpH
  | .AND => some .binOpH
  | .LEFTPAREN => some .callH
  | _ => none

/-- `parser.Parser` (lines 45-53).  The two handler maps are the fixed
functions `prefixFnFor`/`infixFnFor` above (they are built once by
`registerFixes` and never modified). -/
structure ParserSt where
  tokens : List Token
  index : Nat
  statements : List Stmt
  errors : List String
  indentLevel : Int

/-- The zero value `lexer.Token{}` returned by `peek` at end of input. -/
def zeroToken : Token := ⟨.EMPTY, "", ⟨0, 0⟩⟩

/-- `(*Parser).current` (lines 368-370); `none` models the Go panic when
`index` is out of range. -/
def ParserSt.cur (p : ParserSt) : Option Token := p.tokens.get? p.index

/-- `(*Parser).end` (lines 363-366). -/
def ParserSt.isEnd (p : ParserSt) : Option Bool :=
  match p.cur with
  | none => none
  | some t => some (t.name = TokenType.EOF)

/-- `(*Parser).peek` (lines 372-377). -/
def ParserSt.peekTok (p : ParserSt) : Option Token :=
  match p.isEnd with
  | none => none
  | some true => some zeroToken
  | some false => p.tokens.get? (p.index + 1)

/-- `(*Parser).next` (lines 357-361). -/
def ParserSt.nextP (p : ParserSt) : Option ParserSt :=
  match p.isEnd with
  | none => none
  | some true => some p
  | some false => some { p with index := p.index + 1 }

/-- `(*Parser).checkCurrent` (lines 337-340). -/
def ParserSt.checkCurrent (p : ParserSt) (t : TokenType) : Option Bool :=
  match p.isEnd with
  | none => none
  | some true => some false
  | some false =>
    match p.cur with
    | none => none
    | some c => some (c.name = t)

/-- `(*Parser).checkPeek` (lines 342-345). -/
def ParserSt.checkPeek (p : ParserSt) (t : TokenType) : Option Bool :=
  match p.isEnd with
  | none => none
  | some true => some false
  | some false =>
    match p.peekTok with
    | none => none
    | some pk => some (pk.name = t)

/-- Decimal rendering of a natural number (digits of `strconv`). -/
def natDecAux : Nat → Nat → List Char → List Char
  | 0, _, acc => acc
  | fuel + 1, n, acc =>
    let d := Char.ofNat (48 + n % 10)
    if n < 10 then d :: acc else natDecAux fuel (n / 10) (d :: acc)

/-- Decimal string of a natural number, e.g. `natDec 83 = "83"`. -/
def natDec (n : Nat) : List Char := natDecAux (n + 1) n []

/-- Model of Go `strconv.Itoa` on a (64-bit) integer, as used by
`ast.IntLiteral.String` (`src/ast/ast.go` line 94). -/
def goItoa (v : Int) : List Char :=
  if v < 0 then '-' :: natDec v.natAbs else natDec v.natAbs

/-- `Token.GetPosition` (`src/lexer/lexer.go` lines 89-91). -/
def Token.getPosition (t : Token) : String :=
  "line " ++ (natDec t.pos.row).asString ++ ", column " ++ (natDec t.pos.col).asString

/-- `(*Parser).peekError` (lines 351-355). -/
def ParserSt.peekError (p : ParserSt) (t : TokenType) : Option ParserSt :=
  match p.peekTok with
  | none => none
  | some pk =>
    some { p with
           errors := p.errors ++
             ["error at " ++ pk.getPosition ++ ": expected next token to be " ++
              t.str ++ ", got " ++ pk.name.str ++ " instead"] }

/-- `(*Parser).expectPeek` (lines 327-335). -/
def ParserSt.expectPeek (p : ParserSt) (t : TokenType) : Option (Bool × ParserSt) :=
  match p.checkPeek t with
  | none => none
  | some true =>
    match p.nextP with
    | none => none
    | some p' => some (true, p')
  | some false =>
    match p.peekError t with
    | none => none
    | some p' => some (false, p')

/-- `(*Parser).expectCurrent` (lines 318-325). -/
def ParserSt.expectCurrent (p : ParserSt) (t : TokenType) : Option (Bool × ParserSt) :=
  match p.checkCurrent t with
  | none => none
  | some true =>
    match p.nextP with
    | none => none
    | some p' => some (true, p')
  | some false => some (false, p)

/-- `(*Parser).currentPrec` (lines 387-392). -/
def ParserSt.currentPrec (p : ParserSt) : Option Nat :=
  match p.cur with
  | none => none
  | some c => some ((precedenceMap c.name).getD pLOWEST)

/-- `(*Parser).peekPrec` (lines 394-399). -/
def ParserSt.peekPrec (p : ParserSt) : Option Nat :=
  match p.peekTok with
  | none => none
  | some pk => some ((precedenceMap pk.name).getD pLOWEST)

/-- One digit of `strconv.ParseUint`'s per-character loop: the character
classes `0-9`, `a-z`, `A-Z` and their values; any other character is a
syntax error. -/
def goDigitVal (c : Char) : Option Nat :=
  if '0' ≤ c ∧ c ≤ '9' then some (c.toNat - 48)
  else if 'a' ≤ c ∧ c ≤ 'z' then some (c.toNat - 97 + 10)
  else if 'A' ≤ c ∧ c ≤ 'Z' then some (c.toNat - 65 + 10)
  else none

/-- The value accumulation of `strconv.ParseUint`'s per-character loop. -/
def goDigitsValAux (base : Nat) : List Char → Nat → Option Nat
  | [], acc => some acc
  | c :: rest, acc =>
    match goDigitVal c with
    | none => none
    | some d => if d < base then goDigitsValAux base rest (acc * base + d) else none

/-- Digit-validity check and value accumulation of Go
`strconv.ParseUint`'s loop for a given base. -/
def goDigitsVal (base : Nat) (ds : List Char) : Option Nat := goDigitsValAux base ds 0

/-- Model of Go `strconv.ParseInt(s, 0, 64)` as called by
`parseIntLiteral` (line 199): optional sign, base detection for base `0`
(`0b`/`0o`/`0x` prefixes, a bare leading `0` meaning octal, else decimal),
per-digit validity for the detected base, and the signed 64-bit range
check.  `none` is a non-nil Go error.  (Digit-separating underscores,
which base 0 would also allow, are omitted: no caller-supplied string
contains one — `lexInt` emits pure digit runs.) -/
def goParseIntRange (neg : Bool) (n : Nat) : Option Int :=
  if neg then
    if n ≤ 2 ^ 63 then some (-(n : Int)) else none
  else
    if n ≤ 2 ^ 63 - 1 then some (n : Int) else none

/-- Base detection and digit scan of `strconv.ParseInt(·, 0, 64)` after
the sign has been stripped: `0b`/`0o`/`0x` prefixes, a bare leading `0`
meaning octal, else decimal; then the digit loop for the detected base
and the signed 64-bit range check. -/
def goParseIntBody (neg : Bool) : List Char → Option Int
  | [] => none
  | c :: rest =>
    if c = '0' then
      match rest with
      | c2 :: r2 =>
        if r2 ≠ [] ∧ (c2 = 'b' ∨ c2 = 'B') then
          match goDigitsVal 2 r2 with
          | none => none
          | some n => goParseIntRange neg n
        else if r2 ≠ [] ∧ (c2 = 'o' ∨ c2 = 'O') then
          match goDigitsVal 8 r2 with
          | none => none
          | some n => goParseIntRange neg n
        else if r2 ≠ [] ∧ (c2 = 'x' ∨ c2 = 'X') then
          match goDigitsVal 16 r2 with
          | none => none
          | some n => goParseIntRange neg n
        else
          match goDigitsVal 8 rest with
          | none => none
          | some n => goParseIntRange neg n
      | [] => goParseIntRange neg 0
    else
      match goDigitsVal 10 (c :: rest) with
      | none => none
      | some n => goParseIntRange neg n

/-- Model of Go `strconv.ParseInt(s, 0, 64)` as called by
`parseIntLiteral` (line 199): optional sign, then base detection and the
digit loop (`goParseIntBody`).  `none` is a non-nil Go error.
(Digit-separating underscores, which base 0 would also allow, are
omitted: no caller-supplied string contains one — `lexInt` emits pure
digit runs.) -/
def goParseInt64 : List Char → Option Int
  | [] => none
  | c1 :: r1 =>
    goParseIntBody (c1 = '-') (if c1 = '+' ∨ c1 = '-' then r1 else c1 :: r1)

/-- `(*Parser).parseIdent` (lines 193-195). -/
def parseIdentH (p : ParserSt) : Option (Expr × ParserSt) :=
  match p.cur with
  | none => none
  | some c => some (Expr.identE c c.val, p)

/-- `(*Parser).parseIntLiteral` (lines 197-207); `fmt.Sprintf("%q", v)`
on the lexer's digit strings is plain double-quoting. -/
def parseIntLiteralH (p : ParserSt) : Option (Expr × ParserSt) :=
  match p.cur with
  | none => none
  | some c =>
    match goParseInt64 c.val.toList with
    | none =>
      some (Expr.nilE,
        { p with errors := p.errors ++
            ["could not parse \x22" ++ c.val ++ "\x22 as int"] })
    | some v => some (Expr.intLit c v, p)

/-- `(*Parser).parseStrLiteral` (lines 209-211). -/
def parseStrLiteralH (p : ParserSt) : Option (Expr × ParserSt) :=
  match p.cur with
  | none => none
  | some c => some (Expr.strLit c c.val, p)

/-- The trailing skip loop of `parseVarStmt` (lines 164-166):
`for !p.checkCurrent(lexer.NL) && !p.end() { p.next() }`. -/
def skipToNL : Nat → ParserSt → Option ParserSt
  | 0, _ => none
  | fuel + 1, p =>
    match p.checkCurrent .NL with
    | none => none
    | some true => some p
    | some false =>
      match p.isEnd with
      | none => none
      | some true => some p
      | some false =>
        match p.nextP with
        | none => none
        | some p' => skipToNL fuel p'

/-- The INDENT skip loop at block entry (`parseBlockStmt` lines 258-260):
`for p.checkPeek(lexer.INDENT) { p.next() }`. -/
def skipIndentPeek : Nat → ParserSt → Option ParserSt
  | 0, _ => none
  | fuel + 1, p =>
    match p.checkPeek .INDENT with
    | none => none
    | some true =>
      match p.nextP with
      | none => none
      | some p' => skipIndentPeek fuel p'
    | some false => some p

/-- The newline/indent skip loop inside the block body loop
(`parseBlockStmt` lines 271-273):
`for p.checkCurrent(lexer.NL) || p.checkCurrent(lexer.INDENT) { p.next() }`. -/
def skipNLIndent : Nat → ParserSt → Option ParserSt
  | 0, _ => none
  | fuel + 1, p =>
    match p.checkCurrent .NL with
    | none => none
    | some true =>
      match p.nextP with
      | none => none
      | some p' => skipNLIndent fuel p'
    | some false =>
      match p.checkCurrent .INDENT with
      | none => none
      | some true =>
        match p.nextP with
        | none => none
        | some p' => skipNLIndent fuel p'
      | some false => some p

mutual

/-- `(*Parser).parseStmt` (lines 141-154).  The `Option Stmt` result is
`none` exactly for the newline case (the untyped `nil`). -/
def parseStmtF : Nat → ParserSt → Option (Option Stmt × ParserSt)
  | 0, _ => none
  | fuel + 1, p =>
    match p.cur with
    | none => none
    | some c =>
      match c.name with
      | .IDENT =>
        match p.peekTok with
        | none => none
        | some pk =>
          if pk.name = TokenType.EQUALS then
            match parseVarStmtF fuel p with
            | none => none
            | some (st, p') => some (some st, p')
          else
            match parseExprStmtF fuel p with
            | none => none
            | some (st, p') => some (some st, p')
      | .NL => some (none, p)
      | _ =>
        match parseExprStmtF fuel p with
        | none => none
        | some (st, p') => some (some st, p')

/-- `(*Parser).parseVarStmt` (lines 156-168); a failed `expectPeek`
returns the typed nil `Stmt.nilVar`. -/
def parseVarStmtF : Nat → ParserSt → Option (Stmt × ParserSt)
  | 0, _ => none
  | fuel + 1, p =>
    match p.cur with
    | none => none
    | some c =>
      match p.expectPeek .EQUALS with
      | none => none
      | some (false, p1) => some (Stmt.nilVar, p1)
      | some (true, p1) =>
        match p1.nextP with
        | none => none
        | some p2 =>
          match parseExprF fuel pLOWEST p2 with
          | none => none
          | some (v, p3) =>
            match skipToNL fuel p3 with
            | none => none
            | some p4 => some (Stmt.varStmt c (Expr.identE c c.val) v, p4)

/-- `(*Parser).parseExprStmt` (lines 170-174). -/
def parseExprStmtF : Nat → ParserSt → Option (Stmt × ParserSt)
  | 0, _ => none
  | fuel + 1, p =>
    match p.cur with
    | none => none
    | some c =>
      match parseExprF fuel pLOWEST p with
      | none => none
      | some (e, p') => some (Stmt.exprStmt c e, p')

/-- `(*Parser).parseExpr` (lines 176-191): prefix-handler lookup followed
by the infix loop. -/
def parseExprF : Nat → Nat → ParserSt → Option (Expr × ParserSt)
  | 0, _, _ => none
  | fuel + 1, prec, p =>
    match p.cur with
    | none => none
    | some c =>
      match prefixFnFor c.name with
      | none => some (Expr.nilE, p)
      | some k =>
        match runPreF fuel k p with
        | none => none
        | some (left, p1) => parseExprLoopF fuel prec left p1

/-- The `for` loop of `parseExpr` (lines 182-189), with the source's
short-circuit order: `checkCurrent(NL)` first, then `peekPrec`. -/
def parseExprLoopF : Nat → Nat → Expr → ParserSt → Option (Expr × ParserSt)
  | 0, _, _, _ => none
  | fuel + 1, prec, left, p =>
    match p.checkCurrent .NL with
    | none => none
    | some true => some (left, p)
    | some false =>
      match p.peekPrec with
      | none => none
      | some pp =>
        if prec < pp then
          match p.peekTok with
          | none => none
          | some pk =>
            match infixFnFor pk.name with
            | none => some (left, p)
            | some k =>
              match p.nextP with
              | none => none
              | some p1 =>
                match runInF fuel k left p1 with
                | none => none
                | some (left', p2) => parseExprLoopF fuel prec left' p2
        else some (left, p)

/-- Dispatch through the `prefixParseFns` map. -/
def runPreF : Nat → PreKind → ParserSt → Option (Expr × ParserSt)
  | 0, _, _ => none
  | _ + 1, .identH, p => parseIdentH p
  | _ + 1, .intLitH, p => parseIntLiteralH p
  | _ + 1, .strLitH, p => parseStrLiteralH p
  | fuel + 1, .preOpH, p => parsePreExprF fuel p
  | fuel + 1, .groupingH, p => parseGroupingExprF fuel p
  | fuel + 1, .ifH, p => parseIfExprF fuel p
  | fuel + 1, .whileH, p => parseWhileExprF fuel p

/-- Dispatch through the `infixParseFns` map. -/
def runInF : Nat → InKind → Expr → ParserSt → Option (Expr × ParserSt)
  | 0, _, _, _ => none
  | fuel + 1, .binOpH, left, p => parseInfixExprF fuel left p
  | fuel + 1, .callH, left, p => parseCallExprF fuel left p

/-- `(*Parser).parsePrefixExpr` (lines 213-218). -/
def parsePreExprF : Nat → ParserSt → Option (Expr × ParserSt)
  | 0, _ => none
  | fuel + 1, p =>
    match p.cur with
    | none => none
    | some c =>
      match p.nextP with
      | none => none
      | some p1 =>
        match parseExprF fuel pPREFIX p1 with
        | none => none
        | some (e, p2) => some (Expr.preE c c.val e, p2)

/-- `(*Parser).parseInfixExpr` (lines 220-226). -/
def parseInfixExprF : Nat → Expr → ParserSt → Option (Expr × ParserSt)
  | 0, _, _ => none
  | fuel + 1, left, p =>
    match p.cur with
    | none => none
    | some c =>
      match p.currentPrec with
      | none => none
      | some prec =>
        match p.nextP with
        | none => none
        | some p1 =>
          match parseExprF fuel prec p1 with
          | none => none
          | some (r, p2) => some (Expr.binE c c.val left r, p2)

/-- `(*Parser).parseGroupingExpr` (lines 228-235). -/
def parseGroupingExprF : Nat → ParserSt → Option (Expr × ParserSt)
  | 0, _ => none
  | fuel + 1, p =>
    match p.nextP with
    | none => none
    | some p1 =>
      match parseExprF fuel pLOWEST p1 with
      | none => none
      | some (e, p2) =>
        match p2.expectPeek .RIGHTPAREN with
        | none => none
        | some (false, p3) => some (Expr.nilE, p3)
        | some (true, p3) => some (e, p3)

/-- `(*Parser).parseIfExpr` (lines 237-254). -/
def parseIfExprF : Nat → ParserSt → Option (Expr × ParserSt)
  | 0, _ => none
  | fuel + 1, p =>
    match p.cur with
    | none => none
    | some c =>
      match p.nextP with
      | none => none
      | some p1 =>
        match parseExprF fuel pLOWEST p1 with
        | none => none
        | some (cond, p2) =>
          match p2.expectPeek .COLON with
          | none => none
          | some (false, p3) => some (Expr.nilE, p3)
          | some (true, p3) =>
            match p3.expectPeek .NL with
            | none => none
            | some (false, p4) => some (Expr.nilE, p4)
            | some (true, p4) =>
              match parseBlockStmtF fuel p4 with
              | none => none
              | some (pass, p5) =>
                match p5.expectCurrent .ELSE with
                | none => none
                | some (false, p6) => some (Expr.ifE c cond pass none, p6)
                | some (true, p6) =>
                  match parseBlockStmtF fuel p6 with
                  | none => none
                  | some (fail, p7) => some (Expr.ifE c cond pass (some fail), p7)

/-- `(*Parser).parseWhileExpr` (lines 304-316). -/
def parseWhileExprF : Nat → ParserSt → Option (Expr × ParserSt)
  | 0, _ => none
  | fuel + 1, p =>
    match p.cur with
    | none => none
    | some c =>
      match p.nextP with
      | none => none
      | some p1 =>
        match parseExprF fuel pLOWEST p1 with
        | none => none
        | some (cond, p2) =>
          match p2.expectPeek .COLON with
          | none => none
          | some (false, p3) => some (Expr.nilE, p3)
          | some (true, p3) =>
            match p3.expectPeek .NL with
            | none => none
            | some (false, p4) => some (Expr.nilE, p4)
            | some (true, p4) =>
              match parseBlockStmtF fuel p4 with
              | none => none
              | some (body, p5) => some (Expr.whileE c cond body, p5)

/-- `(*Parser).parseBlockStmt` (lines 256-277): skip to the block's first
token, increment `indentLevel`, run the column-guarded statement loop,
decrement `indentLevel`. -/
def parseBlockStmtF : Nat → ParserSt → Option (Block × ParserSt)
  | 0, _ => none
  | fuel + 1, p =>
    match p.nextP with
    | none => none
    | some p1 =>
      match skipIndentPeek fuel p1 with
      | none => none
      | some p2 =>
        match p2.nextP with
        | none => none
        | some p3 =>
          let p4 : ParserSt := { p3 with indentLevel := p3.indentLevel + 1 }
          match p4.cur with
          | none => none
          | some c =>
            match blockLoopF fuel [] p4 with
            | none => none
            | some (stmts, p5) =>
              some (Block.mk c stmts,
                    { p5 with indentLevel := p5.indentLevel - 1 })

/-- The statement loop of `parseBlockStmt` (lines 265-274), guarded by
`4*p.indentLevel <= p.current().GetCol() && !p.end()`. -/
def blockLoopF : Nat → List Stmt → ParserSt → Option (List Stmt × ParserSt)
  | 0, _, _ => none
  | fuel + 1, acc, p =>
    match p.cur with
    | none => none
    | some c =>
      match p.isEnd with
      | none => none
      | some e =>
        if 4 * p.indentLevel ≤ (c.getCol : Int) ∧ e = false then
          match parseStmtF fuel p with
          | none => none
          | some (st?, p1) =>
            let acc' : List Stmt :=
              match st? with
              | some st => acc ++ [st]
              | none => acc
            match p1.nextP with
            | none => none
            | some p2 =>
              match skipNLIndent fuel p2 with
              | none => none
              | some p3 => blockLoopF fuel acc' p3
        else some (acc, p)

/-- `(*Parser).parseCallExpr` (lines 279-283). -/
def parseCallExprF : Nat → Expr → ParserSt → Option (Expr × ParserSt)
  | 0, _, _ => none
  | fuel + 1, fn, p =>
    match p.cur with
    | none => none
    | some c =>
      match parseCallArgsF fuel p with
      | none => none
      | some (args, p1) => some (Expr.callE c fn args, p1)

/-- `(*Parser).parseCallArgs` (lines 285-302); a nil and an empty result
slice are both `[]`. -/
def parseCallArgsF : Nat → ParserSt → Option (List Expr × ParserSt)
  | 0, _ => none
  | fuel + 1, p =>
    match p.checkPeek .RIGHTPAREN with
    | none => none
    | some true =>
      match p.nextP with
      | none => none
      | some p1 => some ([], p1)
    | some false =>
      match p.nextP with
      | none => none
      | some p1 =>
        match parseExprF fuel pLOWEST p1 with
        | none => none
        | some (a, p2) =>
          match argsLoopF fuel [a] p2 with
          | none => none
          | some (args, p3) =>
            match p3.expectPeek .RIGHTPAREN with
            | none => none
            | some (false, p4) => some ([], p4)
            | some (true, p4) => some (args, p4)

/-- The comma loop of `parseCallArgs` (lines 293-297). -/
def argsLoopF : Nat → List Expr → ParserSt → Option (List Expr × ParserSt)
  | 0, _, _ => none
  | fuel + 1, acc, p =>
    match p.checkPeek .COMMA with
    | none => none
    | some true =>
      match p.nextP with
      | none => none
      | some p1 =>
        match p1.nextP with
        | none => none
        | some p2 =>
          match parseExprF fuel pLOWEST p2 with
          | none => none
          | some (a, p3) => argsLoopF fuel (acc ++ [a]) p3
    | some false => some (acc, p)

end

/-- The `parse` driver loop (lines 129-139). -/
def parseLoopF : Nat → ParserSt → Option ParserSt
  | 0, _ => none
  | fuel + 1, p =>
    match p.isEnd with
    | none => none
    | some true => some p
    | some false =>
      match parseStmtF fuel p with
      | none => none
      | some (st?, p1) =>
        let p2 : ParserSt :=
          match st? with
          | some st => { p1 with statements := p1.statements ++ [st] }
          | none => p1
        match p2.nextP with
        | none => none
        | some p3 => parseLoopF fuel p3

/-- Fuel supplied to the parser: ample for every terminating run on the
given token list (each recursion level and loop iteration consumes one
unit; the concrete and symbolic runs below stay far below this bound). -/
def parserFuel (tokens : List Token) : Nat := 32 * (tokens.length + 1)

/-- `strings.ReplaceAll(input, "    ", "\t")` as performed by
`StartParseRepl` (line 83): left-to-right, non-overlapping. -/
def formatInput : List Char → List Char
  | [] => []
  | c1 :: c2 :: c3 :: c4 :: rest =>
    if c1 = ' ' ∧ c2 = ' ' ∧ c3 = ' ' ∧ c4 = ' ' then
      '\t' :: formatInput rest
    else c1 :: formatInput (c2 :: c3 :: c4 :: rest)
  | c :: rest => c :: formatInput rest

/-- `parser.StartParseRepl` (lines 82-97): normalize, tokenize, parse;
returns the parsed statements and the accumulated diagnostics
(`(*Parser).Errors`).  `none` covers a lexer or parser panic (and the
`panic("no tokens to parse")` guard, unreachable since `startLex` output
is never empty). -/
def startParseRepl (input : List Char) : Option (List Stmt × List String) :=
  let formatted := formatInput input
  match startLex formatted with
  | .error _ => none
  | .ok tokens =>
    if tokens.length = 0 then none
    else
      let p : ParserSt :=
        { tokens := tokens, index := 0, statements := [], errors := []
          indentLevel := 0 }
      match parseLoopF (parserFuel tokens) p with
      | none => none
      | some p' => some (p'.statements, p'.errors)

/-! ## The end-of-input invariant (claim C1)

The scan loop itself never appends a token of kind `EOF`; `StartLex`
appends exactly one after the loop returns. -/

/-- No token in the list has the end-of-input kind. -/
def NoEof (ts : List Token) : Prop := ∀ t ∈ ts, t.name ≠ TokenType.EOF

theorem noEof_nil : NoEof [] := by
  intro t ht
  simp at ht

theorem noEof_append {ts : List Token} {t : Token} (h : NoEof ts)
    (ht : t.name ≠ TokenType.EOF) : NoEof (ts ++ [t]) := by
  intro u hu
  rcases List.mem_append.mp hu with h1 | h2
  · exact h u h1
  · rcases List.mem_singleton.mp h2 with rfl
    exact ht

theorem noEof_dropLast {ts : List Token} (h : NoEof ts) : NoEof ts.dropLast :=
  fun t hm => h t ((List.dropLast_sublist ts).mem hm)

set_option maxHeartbeats 3200000 in
theorem keywordFor_ne_eof {s : String} {k : TokenType} (h : keywordFor s = some k) :
    k ≠ TokenType.EOF := by
  unfold keywordFor at h
  split at h
  · cases h; decide
  split at h
  · cases h; decide
  split at h
  · cases h; decide
  split at h
  · cases h; decide
  split at h
  · cases h; decide
  split at h
  · cases h; decide
  split at h
  · cases h; decide
  split at h
  · cases h; decide
  split at h
  · cases h; decide
  split at h
  · cases h; decide
  split at h
  · cases h; decide
  exact Option.noConfusion h

theorem nextLine_tokens {l l' : LexSt} (h : l.nextLine = .ok l') :
    l'.tokens = l.tokens := by
  unfold LexSt.nextLine at h
  split at h
  · exact Except.noConfusion h
  · cases h
    rfl

theorem lexTextCore_spec {l : LexSt} {v : String} {tok : Token} {l' : LexSt}
    (h : lexTextCore l v = some (tok, l')) (hl : NoEof l.tokens) :
    NoEof l'.tokens ∧ tok.name ≠ TokenType.EOF := by
  unfold lexTextCore at h
  split_ifs at h
  · split at h
    · exact Option.noConfusion h
    · rename_i t hg
      cases h
      refine ⟨noEof_dropLast hl, ?_⟩
      simp
  · split at h
    · exact Option.noConfusion h
    · rename_i t hg
      cases h
      exact ⟨noEof_dropLast hl, hl t (List.mem_of_getLast?_eq_some hg)⟩
  · cases h
    refine ⟨hl, ?_⟩
    simp

theorem lexText_noEof {l : LexSt} {v : String} {l' : LexSt}
    (h : l.lexText v = .ok l') (hl : NoEof l.tokens) : NoEof l'.tokens := by
  unfold LexSt.lexText at h
  split at h
  · exact Except.noConfusion h
  · rename_i tok l1 hcore
    cases h
    obtain ⟨h1, h2⟩ := lexTextCore_spec hcore hl
    refine noEof_append h1 ?_
    cases hk : keywordFor tok.val with
    | none => simpa [hk] using h2
    | some k => simpa [hk] using keywordFor_ne_eof hk

theorem lexString_noEof {l l' : LexSt} (h : l.lexString = .ok l')
    (hl : NoEof l.tokens) : NoEof l'.tokens := by
  simp only [LexSt.lexString] at h
  split at h
  · exact Except.noConfusion h
  · cases h
    refine noEof_append hl ?_
    simp
  · split at h
    · exact Except.noConfusion h
    · split at h
      · exact Except.noConfusion h
      · cases h
        refine noEof_append hl ?_
        simp

theorem lexInt_noEof {l l' : LexSt} (h : l.lexInt = .ok l')
    (hl : NoEof l.tokens) : NoEof l'.tokens := by
  simp only [LexSt.lexInt] at h
  split at h
  · exact Except.noConfusion h
  · split at h
    · exact Except.noConfusion h
    · cases h
      refine noEof_append hl ?_
      simp
  · split at h
    · exact Except.noConfusion h
    · split at h
      · exact Except.noConfusion h
      · cases h
        refine noEof_append hl ?_
        simp

theorem lexOpEq_noEof {l : LexSt} {nEq : TokenType} {vEq : String}
    {n1 : TokenType} {v1 : String} {l' : LexSt}
    (h : l.lexOpEq nEq vEq n1 v1 = .ok l') (hl : NoEof l.tokens)
    (hne : nEq ≠ TokenType.EOF) (hn1 : n1 ≠ TokenType.EOF) : NoEof l'.tokens := by
  unfold LexSt.lexOpEq at h
  split at h
  · exact Except.noConfusion h
  · split at h
    · cases h
      exact noEof_append hl hne
    · cases h
      exact noEof_append hl hn1

theorem runLexAct_noEof {l : LexSt} {c : Char} {a : LexAct} {l' : LexSt}
    (h : runLexAct l c a = .ok l') (hl : NoEof l.tokens) :
    NoEof l'.tokens := by
  cases a with
  | nl =>
    simp only [runLexAct] at h
    rw [nextLine_tokens h]
    refine noEof_append hl ?_
    simp
  | tab =>
    simp only [runLexAct] at h
    cases h
    refine noEof_append hl ?_
    simp
  | opEq o =>
    simp only [runLexAct] at h
    exact lexOpEq_noEof h hl (by cases o <;> decide) (by cases o <;> decide)
  | bang =>
    simp only [runLexAct] at h
    split at h
    · exact Except.noConfusion h
    · split at h <;>
        (cases h
         refine noEof_append hl ?_
         simp)
  | punct1 q =>
    simp only [runLexAct] at h
    cases h
    exact noEof_append hl (by cases q <;> simp [PunctCase.name])
  | str =>
    simp only [runLexAct] at h
    exact lexString_noEof h hl
  | spaceSkip =>
    simp only [runLexAct] at h
    cases h
    exact hl
  | comment =>
    simp only [runLexAct] at h
    rw [nextLine_tokens h]
    exact hl
  | digit =>
    simp only [runLexAct] at h
    split at h
    · exact lexText_noEof h hl
    · exact lexInt_noEof h hl
  | letter =>
    simp only [runLexAct] at h
    exact lexText_noEof h hl
  | illegal =>
    simp only [runLexAct] at h
    cases h
    refine noEof_append hl ?_
    simp

theorem lexStep_noEof {l : LexSt} {c : Char} {l' : LexSt}
    (h : lexStep l c = .ok l') (hl : NoEof l.tokens) : NoEof l'.tokens :=
  runLexAct_noEof h hl

theorem lexLoop_noEof : ∀ (fuel : Nat) (l l' : LexSt),
    lexLoop fuel l = .ok l' → NoEof l.tokens → NoEof l'.tokens := by
  intro fuel
  induction fuel with
  | zero =>
    intro l l' h
    exact Except.noConfusion h
  | succ f ih =>
    intro l l' h hl
    unfold lexLoop at h
    split at h
    · exact Except.noConfusion h
    · rename_i c hg
      split at h
      · exact Except.noConfusion h
      · rename_i l1 hs
        have h1 : NoEof l1.tokens := lexStep_noEof hs hl
        split at h
        · exact ih _ _ h h1
        · cases h
          exact h1

/-! ## The indentation-depth invariant (claim C10)

Only `parseBlockStmt` touches `indentLevel`: once up at block entry, once
down before returning; every parser function restores the depth it was
called at. -/

theorem nextP_indent {p p' : ParserSt} (h : p.nextP = some p') :
    p'.indentLevel = p.indentLevel := by
  unfold ParserSt.nextP at h
  split at h
  · exact Option.noConfusion h
  · cases h; rfl
  · cases h; rfl

theorem peekError_indent {p : ParserSt} {t : TokenType} {p' : ParserSt}
    (h : p.peekError t = some p') : p'.indentLevel = p.indentLevel := by
  unfold ParserSt.peekError at h
  split at h
  · exact Option.noConfusion h
  · cases h; rfl

theorem expectPeek_indent {p : ParserSt} {t : TokenType} {b : Bool} {p' : ParserSt}
    (h : p.expectPeek t = some (b, p')) : p'.indentLevel = p.indentLevel := by
  unfold ParserSt.expectPeek at h
  split at h
  · exact Option.noConfusion h
  · split at h
    · exact Option.noConfusion h
    · rename_i p1 hnext
      cases h
      exact nextP_indent hnext
  · split at h
    · exact Option.noConfusion h
    · rename_i p1 herr
      cases h
      exact peekError_indent herr

theorem expectCurrent_indent {p : ParserSt} {t : TokenType} {b : Bool} {p' : ParserSt}
    (h : p.expectCurrent t = some (b, p')) : p'.indentLevel = p.indentLevel := by
  unfold ParserSt.expectCurrent at h
  split at h
  · exact Option.noConfusion h
  · split at h
    · exact Option.noConfusion h
    · rename_i p1 hnext
      cases h
      exact nextP_indent hnext
  · cases h; rfl

theorem parseIdentH_indent {p : ParserSt} {x : Expr} {p' : ParserSt}
    (h : parseIdentH p = some (x, p')) : p'.indentLevel = p.indentLevel := by
  unfold parseIdentH at h
  split at h
  · exact Option.noConfusion h
  · cases h; rfl

theorem parseIntLiteralH_indent {p : ParserSt} {x : Expr} {p' : ParserSt}
    (h : parseIntLiteralH p = some (x, p')) : p'.indentLevel = p.indentLevel := by
  unfold parseIntLiteralH at h
  split at h
  · exact Option.noConfusion h
  · split at h
    · cases h; rfl
    · cases h; rfl

theorem parseStrLiteralH_indent {p : ParserSt} {x : Expr} {p' : ParserSt}
    (h : parseStrLiteralH p = some (x, p')) : p'.indentLevel = p.indentLevel := by
  unfold parseStrLiteralH at h
  split at h
  · exact Option.noConfusion h
  · cases h; rfl

theorem skipToNL_indent : ∀ (fuel : Nat) (p p' : ParserSt),
    skipToNL fuel p = some p' → p'.indentLevel = p.indentLevel := by
  intro fuel
  induction fuel with
  | zero => intro p p' h; exact Option.noConfusion h
  | succ f ih =>
    intro p p' h
    unfold skipToNL at h
    split at h
    · exact Option.noConfusion h
    · cases h; rfl
    · split at h
      · exact Option.noConfusion h
      · cases h; rfl
      · split at h
        · exact Option.noConfusion h
        · rename_i p1 hnext
          exact (ih _ _ h).trans (nextP_indent hnext)

theorem skipIndentPeek_indent : ∀ (fuel : Nat) (p p' : ParserSt),
    skipIndentPeek fuel p = some p' → p'.indentLevel = p.indentLevel := by
  intro fuel
  induction fuel with
  | zero => intro p p' h; exact Option.noConfusion h
  | succ f ih =>
    intro p p' h
    unfold skipIndentPeek at h
    split at h
    · exact Option.noConfusion h
    · split at h
      · exact Option.noConfusion h
      · rename_i p1 hnext
        exact (ih _ _ h).trans (nextP_indent hnext)
    · cases h; rfl

theorem skipNLIndent_indent : ∀ (fuel : Nat) (p p' : ParserSt),
    skipNLIndent fuel p = some p' → p'.indentLevel = p.indentLevel := by
  intro fuel
  induction fuel with
  | zero => intro p p' h; exact Option.noConfusion h
  | succ f ih =>
    intro p p' h
    unfold skipNLIndent at h
    split at h
    · exact Option.noConfusion h
    · split at h
      · exact Option.noConfusion h
      · rename_i p1 hnext
        exact (ih _ _ h).trans (nextP_indent hnext)
    · split at h
      · exact Option.noConfusion h
      · split at h
        · exact Option.noConfusion h
        · rename_i p1 hnext
          exact (ih _ _ h).trans (nextP_indent hnext)
      · cases h; rfl

/-- Every parser function leaves `indentLevel` unchanged on success:
`parseBlockStmt`'s increment is always matched by its decrement, and no
other function writes the field. -/
theorem parserFns_indent : ∀ fuel : Nat,
    (∀ p x q, parseStmtF fuel p = some (x, q) → q.indentLevel = p.indentLevel) ∧
    (∀ p x q, parseVarStmtF fuel p = some (x, q) → q.indentLevel = p.indentLevel) ∧
    (∀ p x q, parseExprStmtF fuel p = some (x, q) → q.indentLevel = p.indentLevel) ∧
    (∀ prec p x q, parseExprF fuel prec p = some (x, q) → q.indentLevel = p.indentLevel) ∧
    (∀ prec left p x q, parseExprLoopF fuel prec left p = some (x, q) →
      q.indentLevel = p.indentLevel) ∧
    (∀ k p x q, runPreF fuel k p = some (x, q) → q.indentLevel = p.indentLevel) ∧
    (∀ k left p x q, runInF fuel k left p = some (x, q) → q.indentLevel = p.indentLevel) ∧
    (∀ p x q, parsePreExprF fuel p = some (x, q) → q.indentLevel = p.indentLevel) ∧
    (∀ left p x q, parseInfixExprF fuel left p = some (x, q) → q.indentLevel = p.indentLevel) ∧
    (∀ p x q, parseGroupingExprF fuel p = some (x, q) → q.indentLevel = p.indentLevel) ∧
    (∀ p x q, parseIfExprF fuel p = some (x, q) → q.indentLevel = p.indentLevel) ∧
    (∀ p x q, parseWhileExprF fuel p = some (x, q) → q.indentLevel = p.indentLevel) ∧
    (∀ p x q, parseBlockStmtF fuel p = some (x, q) → q.indentLevel = p.indentLevel) ∧
    (∀ acc p x q, blockLoopF fuel acc p = some (x, q) → q.indentLevel = p.indentLevel) ∧
    (∀ left p x q, parseCallExprF fuel left p = some (x, q) → q.indentLevel = p.indentLevel) ∧
    (∀ p x q, parseCallArgsF fuel p = some (x, q) → q.indentLevel = p.indentLevel) ∧
    (∀ acc p x q, argsLoopF fuel acc p = some (x, q) → q.indentLevel = p.indentLevel) := by
  intro fuel
  induction fuel with
  | zero =>
    refine ⟨?_, ?_, ?_, ?_, ?_, ?_, ?_, ?_, ?_, ?_, ?_, ?_, ?_, ?_, ?_, ?_, ?_⟩ <;>
      (intros; rename_i h; exact Option.noConfusion h)
  | succ f ih =>
    obtain ⟨ihStmt, ihVar, ihExprStmt, ihExpr, ihLoop, ihPre, ihIn, ihPreExpr, ihInfix,
      ihGroup, ihIf, ihWhile, ihBlock, ihBlockLoop, ihCall, ihArgs, ihArgsLoop⟩ := ih
    refine ⟨?_, ?_, ?_, ?_, ?_, ?_, ?_, ?_, ?_, ?_, ?_, ?_, ?_, ?_, ?_, ?_, ?_⟩
    · -- parseStmtF
      intro p x q h
      simp only [parseStmtF] at h
      split at h
      · exact Option.noConfusion h
      · split at h
        · split at h
          · exact Option.noConfusion h
          · split at h
            · split at h
              · exact Option.noConfusion h
              · rename_i st p1 hvar
                cases h
                exact ihVar _ _ _ hvar
            · split at h
              · exact Option.noConfusion h
              · rename_i st p1 hexpr
                cases h
                exact ihExprStmt _ _ _ hexpr
        · cases h; rfl
        · split at h
          · exact Option.noConfusion h
          · rename_i st p1 hexpr
            cases h
            exact ihExprStmt _ _ _ hexpr
    · -- parseVarStmtF
      intro p x q h
      simp only [parseVarStmtF] at h
      split at h
      · exact Option.noConfusion h
      · split at h
        · exact Option.noConfusion h
        · rename_i p1 hexp
          cases h
          exact expectPeek_indent hexp
        · rename_i p1 hexp
          split at h
          · exact Option.noConfusion h
          · rename_i p2 hnext
            split at h
            · exact Option.noConfusion h
            · rename_i v p3 he
              split at h
              · exact Option.noConfusion h
              · rename_i p4 hskip
                cases h
                have e1 := skipToNL_indent _ _ _ hskip
                have e2 := ihExpr _ _ _ _ he
                have e3 := nextP_indent hnext
                have e4 := expectPeek_indent hexp
                omega
    · -- parseExprStmtF
      intro p x q h
      simp only [parseExprStmtF] at h
      split at h
      · exact Option.noConfusion h
      · split at h
        · exact Option.noConfusion h
        · rename_i e p1 he
          cases h
          exact ihExpr _ _ _ _ he
    · -- parseExprF
      intro prec p x q h
      simp only [parseExprF] at h
      split at h
      · exact Option.noConfusion h
      · split at h
        · cases h; rfl
        · split at h
          · exact Option.noConfusion h
          · rename_i left p1 hpre
            have e1 := ihLoop _ _ _ _ _ h
            have e2 := ihPre _ _ _ _ hpre
            omega
    · -- parseExprLoopF
      intro prec left p x q h
      simp only [parseExprLoopF] at h
      split at h
      · exact Option.noConfusion h
      · cases h; rfl
      · split at h
        · exact Option.noConfusion h
        · split at h
          · split at h
            · exact Option.noConfusion h
            · split at h
              · cases h; rfl
              · split at h
                · exact Option.noConfusion h
                · rename_i p1 hnext
                  split at h
                  · exact Option.noConfusion h
                  · rename_i left2 p2 hin
                    have e1 := ihLoop _ _ _ _ _ h
                    have e2 := ihIn _ _ _ _ _ hin
                    have e3 := nextP_indent hnext
                    omega
          · cases h; rfl
    · -- runPreF
      intro k p x q h
      cases k <;> simp only [runPreF] at h
      · exact parseIdentH_indent h
      · exact parseIntLiteralH_indent h
      · exact parseStrLiteralH_indent h
      · exact ihPreExpr _ _ _ h
      · exact ihGroup _ _ _ h
      · exact ihIf _ _ _ h
      · exact ihWhile _ _ _ h
    · -- runInF
      intro k left p x q h
      cases k <;> simp only [runInF] at h
      · exact ihInfix _ _ _ _ h
      · exact ihCall _ _ _ _ h
    · -- parsePreExprF
      intro p x q h
      simp only [parsePreExprF] at h
      split at h
      · exact Option.noConfusion h
      · split at h
        · exact Option.noConfusion h
        · rename_i p1 hnext
          split at h
          · exact Option.noConfusion h
          · rename_i e p2 he
            cases h
            have e1 := ihExpr _ _ _ _ he
            have e2 := nextP_indent hnext
            omega
    · -- parseInfixExprF
      intro left p x q h
      simp only [parseInfixExprF] at h
      split at h
      · exact Option.noConfusion h
      · split at h
        · exact Option.noConfusion h
        · split at h
          · exact Option.noConfusion h
          · rename_i p1 hnext
            split at h
            · exact Option.noConfusion h
            · rename_i r p2 he
              cases h
              have e1 := ihExpr _ _ _ _ he
              have e2 := nextP_indent hnext
              omega
    · -- parseGroupingExprF
      intro p x q h
      simp only [parseGroupingExprF] at h
      split at h
      · exact Option.noConfusion h
      · rename_i p1 hnext
        split at h
        · exact Option.noConfusion h
        · rename_i e p2 he
          split at h
          · exact Option.noConfusion h
          · rename_i p3 hexp
            cases h
            have e1 := expectPeek_indent hexp
            have e2 := ihExpr _ _ _ _ he
            have e3 := nextP_indent hnext
            omega
          · rename_i p3 hexp
            cases h
            have e1 := expectPeek_indent hexp
            have e2 := ihExpr _ _ _ _ he
            have e3 := nextP_indent hnext
            omega
    · -- parseIfExprF
      intro p x q h
      simp only [parseIfExprF] at h
      split at h
      · exact Option.noConfusion h
      · split at h
        · exact Option.noConfusion h
        · rename_i p1 hnext
          split at h
          · exact Option.noConfusion h
          · rename_i cond p2 he
            split at h
            · exact Option.noConfusion h
            · rename_i p3 hcolon
              cases h
              have e1 := expectPeek_indent hcolon
              have e2 := ihExpr _ _ _ _ he
              have e3 := nextP_indent hnext
              omega
            · rename_i p3 hcolon
              split at h
              · exact Option.noConfusion h
              · rename_i p4 hnl
                cases h
                have e1 := expectPeek_indent hnl
                have e2 := expectPeek_indent hcolon
                have e3 := ihExpr _ _ _ _ he
                have e4 := nextP_indent hnext
                omega
              · rename_i p4 hnl
                split at h
                · exact Option.noConfusion h
                · rename_i pass p5 hblock
                  split at h
                  · exact Option.noConfusion h
                  · rename_i p6 helse
                    cases h
                    have e1 := expectCurrent_indent helse
                    have e2 := ihBlock _ _ _ hblock
                    have e3 := expectPeek_indent hnl
                    have e4 := expectPeek_indent hcolon
                    have e5 := ihExpr _ _ _ _ he
                    have e6 := nextP_indent hnext
                    omega
                  · rename_i p6 helse
                    split at h
                    · exact Option.noConfusion h
                    · rename_i fail p7 hblock2
                      cases h
                      have e1 := ihBlock _ _ _ hblock2
                      have e2 := expectCurrent_indent helse
                      have e3 := ihBlock _ _ _ hblock
                      have e4 := expectPeek_indent hnl
                      have e5 := expectPeek_indent hcolon
                      have e6 := ihExpr _ _ _ _ he
                      have e7 := nextP_indent hnext
                      omega
    · -- parseWhileExprF
      intro p x q h
      simp only [parseWhileExprF] at h
      split at h
      · exact Option.noConfusion h
      · split at h
        · exact Option.noConfusion h
        · rename_i p1 hnext
          split at h
          · exact Option.noConfusion h
          · rename_i cond p2 he
            split at h
            · exact Option.noConfusion h
            · rename_i p3 hcolon
              cases h
              have e1 := expectPeek_indent hcolon
              have e2 := ihExpr _ _ _ _ he
              have e3 := nextP_indent hnext
              omega
            · rename_i p3 hcolon
              split at h
              · exact Option.noConfusion h
              · rename_i p4 hnl
                cases h
                have e1 := expectPeek_indent hnl
                have e2 := expectPeek_indent hcolon
                have e3 := ihExpr _ _ _ _ he
                have e4 := nextP_indent hnext
                omega
              · rename_i p4 hnl
                split at h
                · exact Option.noConfusion h
                · rename_i body p5 hblock
                  cases h
                  have e1 := ihBlock _ _ _ hblock
                  have e2 := expectPeek_indent hnl
                  have e3 := expectPeek_indent hcolon
                  have e4 := ihExpr _ _ _ _ he
                  have e5 := nextP_indent hnext
                  omega
    · -- parseBlockStmtF
      intro p x q h
      simp only [parseBlockStmtF] at h
      split at h
      · exact Option.noConfusion h
      · rename_i p1 hnext1
        split at h
        · exact Option.noConfusion h
        · rename_i p2 hskip
          split at h
          · exact Option.noConfusion h
          · rename_i p3 hnext2
            split at h
            · exact Option.noConfusion h
            · split at h
              · exact Option.noConfusion h
              · rename_i stmts p5 hloop
                cases h
                have e1 := ihBlockLoop _ _ _ _ hloop
                have e2 := nextP_indent hnext2
                have e3 := skipIndentPeek_indent _ _ _ hskip
                have e4 := nextP_indent hnext1
                simp only at e1 ⊢
                omega
    · -- blockLoopF
      intro acc p x q h
      simp only [blockLoopF] at h
      split at h
      · exact Option.noConfusion h
      · split at h
        · exact Option.noConfusion h
        · split at h
          · split at h
            · exact Option.noConfusion h
            · rename_i st p1 hstmt
              split at h
              · exact Option.noConfusion h
              · rename_i p2 hnext
                split at h
                · exact Option.noConfusion h
                · rename_i p3 hskip
                  have e1 := ihBlockLoop _ _ _ _ h
                  have e2 := skipNLIndent_indent _ _ _ hskip
                  have e3 := nextP_indent hnext
                  have e4 := ihStmt _ _ _ hstmt
                  omega
          · cases h; rfl
    · -- parseCallExprF
      intro left p x q h
      simp only [parseCallExprF] at h
      split at h
      · exact Option.noConfusion h
      · split at h
        · exact Option.noConfusion h
        · rename_i args p1 hargs
          cases h
          exact ihArgs _ _ _ hargs
    · -- parseCallArgsF
      intro p x q h
      simp only [parseCallArgsF] at h
      split at h
      · exact Option.noConfusion h
      · split at h
        · exact Option.noConfusion h
        · rename_i p1 hnext
          cases h
          exact nextP_indent hnext
      · split at h
        · exact Option.noConfusion h
        · rename_i p1 hnext
          split at h
          · exact Option.noConfusion h
          · rename_i a p2 he
            split at h
            · exact Option.noConfusion h
            · rename_i args p3 hloop
              split at h
              · exact Option.noConfusion h
              · rename_i p4 hexp
                cases h
                have e1 := expectPeek_indent hexp
                have e2 := ihArgsLoop _ _ _ _ hloop
                have e3 := ihExpr _ _ _ _ he
                have e4 := nextP_indent hnext
                omega
              · rename_i p4 hexp
                cases h
                have e1 := expectPeek_indent hexp
                have e2 := ihArgsLoop _ _ _ _ hloop
                have e3 := ihExpr _ _ _ _ he
                have e4 := nextP_indent hnext
                omega
    · -- argsLoopF
      intro acc p x q h
      simp only [argsLoopF] at h
      split at h
      · exact Option.noConfusion h
      · split at h
        · exact Option.noConfusion h
        · rename_i p1 hnext1
          split at h
          · exact Option.noConfusion h
          · rename_i p2 hnext2
            split at h
            · exact Option.noConfusion h
            · rename_i a p3 he
              have e1 := ihArgsLoop _ _ _ _ h
              have e2 := ihExpr _ _ _ _ he
              have e3 := nextP_indent hnext2
              have e4 := nextP_indent hnext1
              omega
      · cases h; rfl

/-! ## Lexing and parsing a bare decimal numeral (claim C7)

A pure digit string lexes to a single `NUM` token; parsing it applies
`parseIntLiteral`, whose `strconv.ParseInt(·, 0, 64)` call reads a
canonical decimal numeral at face value; and `strconv.Itoa` re-serializes
that value to the original text. -/

/-- Bounds of the code point of a decimal digit character. -/
theorem isDigit_toNat {c : Char} (h : c.isDigit) : 48 ≤ c.toNat ∧ c.toNat ≤ 57 := by
  simp only [Char.isDigit, Char.le_def, UInt32.le_def, BitVec.le_def, Bool.and_eq_true,
    decide_eq_true_eq] at h
  exact ⟨h.1, h.2⟩

/-- Numeric value of a decimal digit character. -/
def charVal (c : Char) : Nat := c.toNat - 48

/-- Character of a decimal digit value. -/
def digitChar (d : Nat) : Char := Char.ofNat (48 + d)

theorem digitChar_charVal {c : Char} (h : c.isDigit) : digitChar (charVal c) = c := by
  have hb := isDigit_toNat h
  unfold digitChar charVal
  rw [show 48 + (c.toNat - 48) = c.toNat by omega]
  exact Char.ofNat_toNat c

/-- The decimal value of a digit string, read big-endian — the value
`strconv.ParseUint` accumulates in base 10. -/
def decValue (ds : List Char) : Nat := ds.foldl (fun a c => a * 10 + charVal c) 0

theorem goDigitVal_digit {c : Char} (h : c.isDigit) : goDigitVal c = some (charVal c) := by
  have hle : '0' ≤ c ∧ c ≤ '9' := by
    simpa [Char.isDigit, Bool.and_eq_true, decide_eq_true_eq] using h
  unfold goDigitVal
  rw [if_pos hle]
  rfl

theorem goDigitsValAux_digits : ∀ (ds : List Char) (acc : Nat), (∀ c ∈ ds, c.isDigit) →
    goDigitsValAux 10 ds acc = some (ds.foldl (fun a c => a * 10 + charVal c) acc) := by
  intro ds
  induction ds with
  | nil => intro acc _; rfl
  | cons c rest ih =>
    intro acc hd
    have hb := isDigit_toNat (hd c (by simp))
    have hg := goDigitVal_digit (hd c (by simp))
    rw [goDigitsValAux, hg]
    simp only []
    rw [if_pos (show charVal c < 10 by unfold charVal; omega)]
    rw [ih _ (fun x hx => hd x (by simp [hx]))]
    rfl

theorem goDigitsVal_digits (ds : List Char) (hd : ∀ c ∈ ds, c.isDigit) :
    goDigitsVal 10 ds = some (decValue ds) :=
  goDigitsValAux_digits ds 0 hd

/-- `strconv.ParseInt(s, 0, 64)` reads a canonical decimal numeral (no
leading zero, or the single digit `0`) at face value when it fits in
63 bits. -/
theorem goParseInt64_canonical (c0 : Char) (rest : List Char)
    (hd : ∀ c ∈ c0 :: rest, c.isDigit)
    (hcanon : c0 ≠ '0' ∨ rest = [])
    (hrange : decValue (c0 :: rest) ≤ 2 ^ 63 - 1) :
    goParseInt64 (c0 :: rest) = some ((decValue (c0 :: rest) : Int)) := by
  have hb := isDigit_toNat (hd c0 (by simp))
  have hplus : ¬(c0 = '+' ∨ c0 = '-') := by
    rintro (he | he) <;> (subst he; exact absurd hb (by decide))
  rw [goParseInt64, if_neg hplus,
    decide_eq_false (fun he => hplus (Or.inr he))]
  by_cases h0 : c0 = '0'
  · rcases hcanon with hne | hrest
    · exact absurd h0 hne
    · subst h0 hrest
      simp only [decValue, List.foldl, charVal] at hrange ⊢
      rfl
  · simp only [goParseIntBody]
    rw [if_neg h0, goDigitsVal_digits _ hd]
    simp only []
    rw [goParseIntRange, if_neg (by simp)]
    rw [if_pos hrange]

/-- A decimal digit dispatches to the `digit` action of the scan switch. -/
theorem charAct_digit {c : Char} (h : c.isDigit) : charAct c = .digit := by
  have hne : ∀ d : Char, ¬d.isDigit → c ≠ d := fun d hd he => hd (he ▸ h)
  have hsp : ¬goIsSpace c = true := by
    simp only [goIsSpace, decide_eq_true_eq]
    push_neg
    exact ⟨hne _ (by decide), hne _ (by decide), hne _ (by decide), hne _ (by decide),
           hne _ (by decide), hne _ (by decide), hne _ (by decide), hne _ (by decide)⟩
  unfold charAct
  rw [if_neg (hne _ (by decide)), if_neg (hne _ (by decide)), if_neg (hne _ (by decide)),
    if_neg (hne _ (by decide)), if_neg (hne _ (by decide)), if_neg (hne _ (by decide)),
    if_neg (hne _ (by decide)), if_neg (hne _ (by decide)), if_neg (hne _ (by decide)),
    if_neg (hne _ (by decide)), if_neg (hne _ (by decide)), if_neg (hne _ (by decide)),
    if_neg (hne _ (by decide)), if_neg (hne _ (by decide)), if_neg (hne _ (by decide)),
    if_neg (hne _ (by decide)), if_neg (hne _ (by decide)), if_neg hsp,
    if_neg (by rintro (he | he) <;> exact hne _ (by decide) he),
    if_pos (show goIsDigit c = true from h)]

/-- On an all-digit input the `lexInt` scan loop runs to the last index. -/
theorem intLoop_digits : ∀ (fuel : Nat) (input : List Char) (idx : Nat) (next : Char),
    (∀ c ∈ input, c.isDigit) → idx + 2 ≤ input.length →
    input.get? (idx + 1) = some next →
    input.length ≤ fuel + idx + 1 →
    intLoop fuel input idx next = .ok (input.length - 1) := by
  intro fuel
  induction fuel with
  | zero =>
    intro input idx next _ hlen _ hfuel
    exact absurd hfuel (by omega)
  | succ f ih =>
    intro input idx next hd hlen hget hfuel
    have hnd : next.isDigit := hd next (List.get?_mem hget)
    simp only [intLoop]
    rw [if_pos hnd]
    by_cases hend : idx + 1 + 1 = input.length
    · rw [if_pos hend, show idx + 1 = input.length - 1 from by omega]
    · rw [if_neg hend]
      cases hg2 : input.get? (idx + 1 + 1) with
      | none =>
        rw [List.get?_eq_none] at hg2
        exact absurd hg2 (by omega)
      | some c2 =>
        exact ih input (idx + 1) c2 hd (by omega) hg2 (by omega)

/-- The four-spaces-to-tab normalization leaves an all-digit input
unchanged. -/
theorem formatInput_digits : ∀ ds : List Char, (∀ c ∈ ds, c.isDigit) → formatInput ds = ds := by
  intro ds
  induction ds with
  | nil => intro _; rfl
  | cons c rest ih =>
    intro hd
    have hcs : c ≠ ' ' := by
      intro he
      have hc := hd c (by simp)
      rw [he] at hc
      exact absurd hc (by decide)
    have hrest : ∀ x ∈ rest, x.isDigit := fun x hx => hd x (List.mem_cons_of_mem _ hx)
    rcases rest with - | ⟨a, - | ⟨b, - | ⟨d, tl⟩⟩⟩
    · rfl
    · show formatInput [c, a] = [c, a]
      rfl
    · rfl
    · show formatInput (c :: a :: b :: d :: tl) = _
      simp only [formatInput]
      rw [if_neg (fun hand => hcs hand.1)]
      rw [ih hrest]

/-- `lexInt` at the initial scan state of an all-digit input consumes the
whole input into one `NUM` token. -/
theorem lexInt_digits_init (c0 : Char) (rest : List Char)
    (hd : ∀ c ∈ c0 :: rest, c.isDigit) :
    LexSt.lexInt { index := 0, input := c0 :: rest, line := 1, column := 0,
                   currentType := .none0, tokens := [] } =
      .ok { index := (c0 :: rest).length - 1, input := c0 :: rest, line := 1, column := 0,
            currentType := .int, tokens := [⟨.NUM, (c0 :: rest).asString, ⟨1, 0⟩⟩] } := by
  rcases rest with - | ⟨c1, rest2⟩
  · rfl
  · have hlen : (c0 :: c1 :: rest2).length - 1 + 1 = (c0 :: c1 :: rest2).length := by simp
    simp only [LexSt.lexInt, LexSt.peekc]
    rw [if_pos (show (0 : Nat) + 1 ≠ (c0 :: c1 :: rest2).length from by simp)]
    simp only [List.get?]
    rw [intLoop_digits ((c0 :: c1 :: rest2).length + 2) _ 0 c1 hd (by simp)
      (by simp [List.get?]) (by simp)]
    simp only [hlen, goSlice]
    rw [if_pos (by simp)]
    simp [List.take_length]

/-- One pass of the scan loop lexes an all-digit input to one `NUM`
token. -/
theorem lexLoop_digits (f : Nat) (c0 : Char) (rest : List Char)
    (hd : ∀ c ∈ c0 :: rest, c.isDigit) :
    lexLoop (f + 1)
      { index := 0, input := c0 :: rest, line := 1, column := 0,
        currentType := .none0, tokens := [] } =
      .ok { index := (c0 :: rest).length, input := c0 :: rest, line := 1, column := 1,
            currentType := .int, tokens := [⟨.NUM, (c0 :: rest).asString, ⟨1, 0⟩⟩] } := by
  have hstep : lexStep (⟨0, c0 :: rest, 1, 0, .none0, []⟩ : LexSt) c0 =
      LexSt.lexInt (⟨0, c0 :: rest, 1, 0, .none0, []⟩ : LexSt) := by
    unfold lexStep
    rw [charAct_digit (hd c0 (by simp))]
    simp [runLexAct]
  have hlen : (c0 :: rest).length - 1 + 1 = (c0 :: rest).length := by simp
  rw [lexLoop]
  simp only [List.get?]
  rw [hstep, lexInt_digits_init c0 rest hd]
  simp only [hlen]
  rw [if_neg (by omega)]

/-- `StartLex` on a non-empty all-digit input yields exactly a `NUM`
token carrying the whole text and the end-of-input token. -/
theorem startLex_digits (ds : List Char) (hne : ds ≠ []) (hd : ∀ c ∈ ds, c.isDigit) :
    startLex ds = .ok [⟨.NUM, ds.asString, ⟨1, 0⟩⟩, ⟨.EOF, "", ⟨2, 0⟩⟩] := by
  obtain ⟨c0, rest, rfl⟩ := List.exists_cons_of_ne_nil hne
  unfold startLex
  rw [show (c0 :: rest).length + 2 = ((c0 :: rest).length + 1) + 1 from rfl]
  rw [lexLoop_digits ((c0 :: rest).length + 1) c0 rest hd]
  rfl


/-- `natDecAux` renders the base-10 digits of `n` (big-endian) in front
of the accumulator, given enough fuel. -/
theorem natDecAux_digits : ∀ (fuel n : Nat) (acc : List Char), n < fuel →
    natDecAux fuel n acc =
      (if n = 0 then ['0'] else (Nat.digits 10 n).reverse.map digitChar) ++ acc := by
  intro fuel
  induction fuel with
  | zero =>
    intro n acc h
    exact absurd h (Nat.not_lt_zero n)
  | succ f ih =>
    intro n acc h
    simp only [natDecAux]
    by_cases h10 : n < 10
    · rw [if_pos h10]
      by_cases h0 : n = 0
      · subst h0
        simp
      · rw [if_neg h0]
        rw [Nat.digits_def' (by norm_num) (Nat.pos_of_ne_zero h0)]
        rw [Nat.div_eq_of_lt h10]
        simp [digitChar, Nat.mod_eq_of_lt h10]
    · rw [if_neg h10]
      rw [ih (n / 10) _ (by omega)]
      rw [if_neg (show ¬(n / 10 = 0) from by omega)]
      rw [if_neg (show ¬(n = 0) from by omega)]
      rw [Nat.digits_def' (show (1 : ℕ) < 10 from by norm_num) (show 0 < n from by omega)]
      simp [digitChar]

/-- `foldl`-accumulated base-10 reading equals `Nat.ofDigits` of the
reversed digit values. -/
theorem decValue_from : ∀ (ds : List Char) (acc : Nat),
    ds.foldl (fun a c => a * 10 + charVal c) acc =
      acc * 10 ^ ds.length + Nat.ofDigits 10 ((ds.map charVal).reverse) := by
  intro ds
  induction ds with
  | nil =>
    intro acc
    simp [Nat.ofDigits_nil]
  | cons c rest ih =>
    intro acc
    rw [List.foldl_cons, ih]
    rw [List.map_cons, List.reverse_cons, Nat.ofDigits_append]
    simp [Nat.ofDigits_singleton]
    ring

theorem decValue_eq_ofDigits (ds : List Char) :
    decValue ds = Nat.ofDigits 10 ((ds.map charVal).reverse) := by
  unfold decValue
  rw [decValue_from]
  simp

/-- Rendering the decimal value of a canonical numeral gives back its
text. -/
theorem natDec_decValue (c0 : Char) (rest : List Char)
    (hd : ∀ c ∈ c0 :: rest, c.isDigit)
    (hcanon : c0 ≠ '0' ∨ rest = []) :
    natDec (decValue (c0 :: rest)) = c0 :: rest := by
  by_cases h0 : c0 = '0'
  · rcases hcanon with hne | hrest
    · exact absurd h0 hne
    · subst h0 hrest
      rfl
  · have hds : Nat.digits 10 (decValue (c0 :: rest)) = ((c0 :: rest).map charVal).reverse := by
      rw [decValue_eq_ofDigits]
      refine Nat.digits_ofDigits 10 (by norm_num) _ ?_ ?_
      · intro l hl
        rw [List.mem_reverse] at hl
        obtain ⟨c, hc, rfl⟩ := List.mem_map.mp hl
        have := isDigit_toNat (hd c hc)
        unfold charVal
        omega
      · intro hne
        rw [List.getLast_reverse]
        simp only [List.map_cons, List.head_cons]
        have hb := isDigit_toNat (hd c0 (by simp))
        have hne48 : c0.toNat ≠ 48 := by
          intro he
          apply h0
          have : Char.ofNat c0.toNat = Char.ofNat 48 := by rw [he]
          rwa [Char.ofNat_toNat c0] at this
        unfold charVal
        omega
    have hv0 : decValue (c0 :: rest) ≠ 0 := by
      intro hz
      rw [hz] at hds
      simp only [Nat.digits_zero] at hds
      exact absurd hds.symm (by simp)
    unfold natDec
    rw [natDecAux_digits _ _ _ (Nat.lt_succ_self _)]
    rw [if_neg hv0, hds]
    rw [List.reverse_reverse, List.map_map, List.append_nil]
    refine (List.map_congr_left ?_).trans (List.map_id _)
    intro c hc
    exact digitChar_charVal (hd c hc)


/-- The token list the lexer produces for a pure digit string `s`. -/
def numTokens (s : String) : List Token := [⟨.NUM, s, ⟨1, 0⟩⟩, ⟨.EOF, "", ⟨2, 0⟩⟩]

/-- Initial parser state over `numTokens s`. -/
def numEntrySt (s : String) : ParserSt :=
  { tokens := numTokens s, index := 0, statements := [], errors := [], indentLevel := 0 }

/-- Final parser state after parsing `numTokens s` to the literal `v`. -/
def numExitSt (s : String) (v : Int) : ParserSt :=
  { tokens := numTokens s, index := 1,
    statements := [Stmt.exprStmt ⟨.NUM, s, ⟨1, 0⟩⟩ (Expr.intLit ⟨.NUM, s, ⟨1, 0⟩⟩ v)],
    errors := [], indentLevel := 0 }

/-- The parse loop on a single `NUM` token (plus `EOF`) produces one
expression statement holding the integer literal. -/
theorem numParse (s : String) (v : Int) (hv : goParseInt64 s.toList = some v) :
    parseLoopF 96 (numEntrySt s) = some (numExitSt s v) := by
  have hv2 : goParseInt64 s.data = some v := hv
  have l1 : parseIntLiteralH (numEntrySt s) =
      some (Expr.intLit ⟨.NUM, s, ⟨1, 0⟩⟩ v, numEntrySt s) := by
    simp [parseIntLiteralH, numEntrySt, numTokens, ParserSt.cur, hv2]
  have l2 : runPreF 92 PreKind.intLitH (numEntrySt s) =
      some (Expr.intLit ⟨.NUM, s, ⟨1, 0⟩⟩ v, numEntrySt s) := by
    rw [show (92 : Nat) = 91 + 1 from rfl, runPreF]
    exact l1
  have l3 : parseExprLoopF 92 pLOWEST (Expr.intLit ⟨.NUM, s, ⟨1, 0⟩⟩ v) (numEntrySt s) =
      some (Expr.intLit ⟨.NUM, s, ⟨1, 0⟩⟩ v, numEntrySt s) := by
    rw [show (92 : Nat) = 91 + 1 from rfl, parseExprLoopF]
    simp [numEntrySt, numTokens, ParserSt.checkCurrent, ParserSt.isEnd, ParserSt.cur,
      ParserSt.peekTok, ParserSt.peekPrec, precedenceMap, pLOWEST]
  have l4 : parseExprF 93 pLOWEST (numEntrySt s) =
      some (Expr.intLit ⟨.NUM, s, ⟨1, 0⟩⟩ v, numEntrySt s) := by
    rw [show (93 : Nat) = 92 + 1 from rfl, parseExprF]
    simp only [numEntrySt, numTokens] at l2 l3 ⊢
    simp [ParserSt.cur, prefixFnFor, l2, l3]
  have l5 : parseExprStmtF 94 (numEntrySt s) =
      some (Stmt.exprStmt ⟨.NUM, s, ⟨1, 0⟩⟩ (Expr.intLit ⟨.NUM, s, ⟨1, 0⟩⟩ v), numEntrySt s) := by
    rw [show (94 : Nat) = 93 + 1 from rfl, parseExprStmtF]
    simp only [numEntrySt, numTokens] at l4 ⊢
    simp [ParserSt.cur, l4]
  have l6 : parseStmtF 95 (numEntrySt s) =
      some (some (Stmt.exprStmt ⟨.NUM, s, ⟨1, 0⟩⟩ (Expr.intLit ⟨.NUM, s, ⟨1, 0⟩⟩ v)),
            numEntrySt s) := by
    rw [show (95 : Nat) = 94 + 1 from rfl, parseStmtF]
    simp only [numEntrySt, numTokens] at l5 ⊢
    simp [ParserSt.cur, l5]
  have l7 : parseLoopF 95 (numExitSt s v) = some (numExitSt s v) := by
    rw [show (95 : Nat) = 94 + 1 from rfl, parseLoopF]
    simp [numExitSt, numTokens, ParserSt.isEnd, ParserSt.cur]
  rw [show (96 : Nat) = 95 + 1 from rfl, parseLoopF, l6]
  simp only [numEntrySt, numTokens, numExitSt] at l7 ⊢
  simp [ParserSt.isEnd, ParserSt.cur, ParserSt.nextP, l7]


/-! ## Claim theorems -/

/-- **C1** (corrected; see the counterexample below for the original
claim).  Whenever `StartLex` terminates without a runtime panic, the
returned token sequence is non-empty, its last element is an end-of-input
token, and the end-of-input kind occurs exactly once in the sequence. -/
theorem claim1_single_trailing_eof (input : List Char) (ts : List Token)
    (h : startLex input = Except.ok ts) :
    ts ≠ [] ∧ (∃ t, ts.getLast? = some t ∧ t.name = TokenType.EOF) ∧
      (ts.filter (fun t => t.name == TokenType.EOF)).length = 1 := by
  unfold startLex at h
  cases hl : lexLoop (input.length + 2)
      { index := 0, input := input, line := 1, column := 0
        currentType := .none0, tokens := [] } with
  | error e =>
    rw [hl] at h
    exact Except.noConfusion h
  | ok l' =>
    rw [hl] at h
    cases h
    have hno : NoEof l'.tokens := lexLoop_noEof _ _ _ hl noEof_nil
    refine ⟨by simp, ⟨_, List.getLast?_concat _, rfl⟩, ?_⟩
    rw [List.filter_append]
    have hnil : l'.tokens.filter (fun t => t.name == TokenType.EOF) = [] := by
      rw [List.filter_eq_nil_iff]
      intro t ht
      simpa using hno t ht
    rw [hnil]
    rfl

/-- Witness for C1 at the concrete input `a`. -/
theorem claim1_witness :
    ([⟨.IDENT, "a", ⟨1, 0⟩⟩, ⟨.EOF, "", ⟨2, 0⟩⟩] : List Token) ≠ [] ∧
      (∃ t, ([⟨.IDENT, "a", ⟨1, 0⟩⟩, ⟨.EOF, "", ⟨2, 0⟩⟩] : List Token).getLast? = some t ∧
        t.name = TokenType.EOF) ∧
      (([⟨.IDENT, "a", ⟨1, 0⟩⟩, ⟨.EOF, "", ⟨2, 0⟩⟩] : List Token).filter
        (fun t => t.name == TokenType.EOF)).length = 1 :=
  claim1_single_trailing_eof ['a'] _ rfl


/-- **C2** (code bug).  Lexing the text `iffy` does *not* yield an
identifier token: the emitted token has the keyword kind `IF` with text
`"iffy"`.  The retraction branch of `lexText` (lines 291-296) tests
`l.currentType == TokenKeyword`, but `TokenKeyword` is never assigned to
`currentType` anywhere in the lexer, so when the keyword-classified token
`if` is extended by `f`, its kind is left unchanged at `IF`; the spec's
required downgrade to identifier never happens. -/
theorem claim2_iffy_lexes_as_IF_kind :
    startLex "iffy".toList =
      Except.ok [⟨.IF, "iffy", ⟨1, 0⟩⟩, ⟨.EOF, "", ⟨2, 0⟩⟩] := by
  rfl

/-- **C4** (confirmed).  Parsing `a = 1 + 2 * 3` produces one
variable-binding statement named `a` whose value tree is `(1 + (2 * 3))`:
the multiplication is nested inside the right operand of the addition. -/
theorem claim4_precedence_a_eq_1_plus_2_times_3 :
    startParseRepl "a = 1 + 2 * 3".toList =
      some ([Stmt.varStmt ⟨.IDENT, "a", ⟨1, 0⟩⟩
               (Expr.identE ⟨.IDENT, "a", ⟨1, 0⟩⟩ "a")
               (Expr.binE ⟨.ADD, "+", ⟨1, 6⟩⟩ "+"
                 (Expr.intLit ⟨.NUM, "1", ⟨1, 4⟩⟩ 1)
                 (Expr.binE ⟨.MULT, "*", ⟨1, 10⟩⟩ "*"
                   (Expr.intLit ⟨.NUM, "2", ⟨1, 8⟩⟩ 2)
                   (Expr.intLit ⟨.NUM, "3", ⟨1, 12⟩⟩ 3)))],
            []) := by
  have h : startLex (formatInput "a = 1 + 2 * 3".toList) =
      Except.ok [⟨.IDENT, "a", ⟨1, 0⟩⟩, ⟨.EQUALS, "=", ⟨1, 2⟩⟩, ⟨.NUM, "1", ⟨1, 4⟩⟩,
        ⟨.ADD, "+", ⟨1, 6⟩⟩, ⟨.NUM, "2", ⟨1, 8⟩⟩, ⟨.MULT, "*", ⟨1, 10⟩⟩,
        ⟨.NUM, "3", ⟨1, 12⟩⟩, ⟨.EOF, "", ⟨2, 0⟩⟩] := by rfl
  simp only [startParseRepl]
  rw [h]
  rfl

/-- **C5** (code bug).  On the unterminated string input `"ab` (opening
quote followed by two characters, no closing quote) the tokenizer emits a
`STRING` token whose text `ab` runs to end of input — not an `ILLEGAL`
token.  The `err != nil` early return of `lexString` (lines 347-356)
fires only when the opening quote stands exactly two characters before
end of input; the scan loop's own `break` on end of input (lines 357-362)
falls through to the `STRING`-emitting code. -/
theorem claim5_unterminated_string_emits_STRING :
    startLex ['\x22', 'a', 'b'] =
      Except.ok [⟨.STRING, "ab", ⟨1, 0⟩⟩, ⟨.EOF, "", ⟨2, 0⟩⟩] := by
  rfl

/-- **C8** (confirmed).  `f(1, 2)` parses to a call node with exactly the
arguments `1` and `2` in source order, and `f()` parses to a call node
with an empty argument list. -/
theorem claim8_call_argument_lists :
    startParseRepl "f(1, 2)".toList =
      some ([Stmt.exprStmt ⟨.IDENT, "f", ⟨1, 0⟩⟩
               (Expr.callE ⟨.LEFTPAREN, "(", ⟨1, 1⟩⟩
                 (Expr.identE ⟨.IDENT, "f", ⟨1, 0⟩⟩ "f")
                 [Expr.intLit ⟨.NUM, "1", ⟨1, 2⟩⟩ 1,
                  Expr.intLit ⟨.NUM, "2", ⟨1, 5⟩⟩ 2])],
            []) ∧
    startParseRepl "f()".toList =
      some ([Stmt.exprStmt ⟨.IDENT, "f", ⟨1, 0⟩⟩
               (Expr.callE ⟨.LEFTPAREN, "(", ⟨1, 1⟩⟩
                 (Expr.identE ⟨.IDENT, "f", ⟨1, 0⟩⟩ "f")
                 [])],
            []) := by
  constructor
  · have h : startLex (formatInput "f(1, 2)".toList) =
        Except.ok [⟨.IDENT, "f", ⟨1, 0⟩⟩, ⟨.LEFTPAREN, "(", ⟨1, 1⟩⟩,
          ⟨.NUM, "1", ⟨1, 2⟩⟩, ⟨.COMMA, ",", ⟨1, 3⟩⟩, ⟨.NUM, "2", ⟨1, 5⟩⟩,
          ⟨.RIGHTPAREN, ")", ⟨1, 6⟩⟩, ⟨.EOF, "", ⟨2, 0⟩⟩] := by rfl
    simp only [startParseRepl]
    rw [h]
    rfl
  · have h : startLex (formatInput "f()".toList) =
        Except.ok [⟨.IDENT, "f", ⟨1, 0⟩⟩, ⟨.LEFTPAREN, "(", ⟨1, 1⟩⟩,
          ⟨.RIGHTPAREN, ")", ⟨1, 2⟩⟩, ⟨.EOF, "", ⟨2, 0⟩⟩] := by rfl
    simp only [startParseRepl]
    rw [h]
    rfl

/-- **C3** (code bug).  Not every expression-continuing token kind has a
registered infix handler, and not every listed operator produces an infix
node combining both operands:
* `registerFixes` (lines 111-127) never registers `lexer.LESS`, although
  the precedence table (line 28) assigns it a precedence and the
  evaluator implements `<` — so `a < b` parses to the bare identifier `a`
  (the expression stops after the left operand; `b` becomes a separate
  statement).
* The lexer's `!` case (lines 158-163) recognises `!=` but, unlike every
  other two-character operator, does not consume the `=`, so `a != b`
  lexes as `!=`, `=`, `b` and the infix node built for `!=` has a nil
  right operand instead of `b`. -/
theorem claim3_less_unregistered_and_noteq_right_nil :
    startParseRepl "a < b".toList =
      some ([Stmt.exprStmt ⟨.IDENT, "a", ⟨1, 0⟩⟩
               (Expr.identE ⟨.IDENT, "a", ⟨1, 0⟩⟩ "a"),
             Stmt.exprStmt ⟨.LESS, "<", ⟨1, 2⟩⟩ Expr.nilE,
             Stmt.exprStmt ⟨.IDENT, "b", ⟨1, 4⟩⟩
               (Expr.identE ⟨.IDENT, "b", ⟨1, 4⟩⟩ "b")],
            []) ∧
    startParseRepl "a != b".toList =
      some ([Stmt.exprStmt ⟨.IDENT, "a", ⟨1, 0⟩⟩
               (Expr.binE ⟨.NOTEQ, "!=", ⟨1, 2⟩⟩ "!="
                 (Expr.identE ⟨.IDENT, "a", ⟨1, 0⟩⟩ "a")
                 Expr.nilE),
             Stmt.exprStmt ⟨.IDENT, "b", ⟨1, 5⟩⟩
               (Expr.identE ⟨.IDENT, "b", ⟨1, 5⟩⟩ "b")],
            []) := by
  constructor
  · have h : startLex (formatInput "a < b".toList) =
        Except.ok [⟨.IDENT, "a", ⟨1, 0⟩⟩, ⟨.LESS, "<", ⟨1, 2⟩⟩,
          ⟨.IDENT, "b", ⟨1, 4⟩⟩, ⟨.EOF, "", ⟨2, 0⟩⟩] := by rfl
    simp only [startParseRepl]
    rw [h]
    rfl
  · have h : startLex (formatInput "a != b".toList) =
        Except.ok [⟨.IDENT, "a", ⟨1, 0⟩⟩, ⟨.NOTEQ, "!=", ⟨1, 2⟩⟩,
          ⟨.EQUALS, "=", ⟨1, 3⟩⟩, ⟨.IDENT, "b", ⟨1, 5⟩⟩, ⟨.EOF, "", ⟨2, 0⟩⟩] := by rfl
    simp only [startParseRepl]
    rw [h]
    rfl

/-- **C6** (confirmed).  Parsing the malformed input `if x\n` (missing
colon) returns normally (`some`), appends exactly one diagnostic — the
`expectPeek(COLON)` failure in `parseIfExpr` — and still returns the
statement sequence (here a single expression statement whose expression
is nil, the best-effort partial node). -/
theorem claim6_missing_colon_single_diagnostic :
    startParseRepl "if x\n".toList =
      some ([Stmt.exprStmt ⟨.IF, "if", ⟨1, 0⟩⟩ Expr.nilE],
            ["error at line 1, column 4: expected next token to be :, got NEWLINE instead"]) := by
  have h : startLex (formatInput "if x\n".toList) =
      Except.ok [⟨.IF, "if", ⟨1, 0⟩⟩, ⟨.IDENT, "x", ⟨1, 3⟩⟩,
        ⟨.NL, "NEWLINE", ⟨1, 4⟩⟩, ⟨.EOF, "", ⟨3, 0⟩⟩] := by rfl
  simp only [startParseRepl]
  rw [h]
  rfl

/-- **C9** (confirmed).  Tokenizing is deterministic: the embedding of
`StartLex` is a pure function of the input string alone — the Go function
reads no state besides the freshly-initialised `Lexer` it allocates — so
two runs on the same source yield identical token sequences. -/
theorem claim9_tokenize_deterministic (s : List Char) (ts1 ts2 : List Token)
    (h1 : startLex s = Except.ok ts1) (h2 : startLex s = Except.ok ts2) :
    ts1 = ts2 := by
  rw [h1] at h2
  exact (Except.ok.injEq _ _).mp h2

/-- Witness for C9 at the concrete input `a`. -/
theorem claim9_witness :
    ([⟨.IDENT, "a", ⟨1, 0⟩⟩, ⟨.EOF, "", ⟨2, 0⟩⟩] : List Token) =
      [⟨.IDENT, "a", ⟨1, 0⟩⟩, ⟨.EOF, "", ⟨2, 0⟩⟩] :=
  claim9_tokenize_deterministic ['a'] _ _ rfl rfl

/-- **C1** (counterexample).  `StartLex` does *not* return for every
input string: on the empty string the do-while scan loop (lines 126-127)
evaluates `l.input[l.index]` before any bound check and panics with an
index out of range. -/
theorem claim1_counterexample_empty_input_crashes :
    startLex [] = Except.error LexErr.crash := by
  rfl

/-- **C7** (counterexample).  The literal round-trip fails on the digit
string `0123`: `parseIntLiteral` calls `strconv.ParseInt(v, 0, 64)`, and
base `0` treats a leading `0` as an octal prefix, so the stored 64-bit
value is `83` (not one hundred twenty-three), and `IntLiteral.String`
re-serializes it as `83`, not `0123`. -/
theorem claim7_counterexample_leading_zero_octal :
    startParseRepl "0123".toList =
      some ([Stmt.exprStmt ⟨.NUM, "0123", ⟨1, 0⟩⟩
               (Expr.intLit ⟨.NUM, "0123", ⟨1, 0⟩⟩ 83)],
            []) ∧
    (83 : Int) ≠ 123 ∧
    goItoa 83 = ['8', '3'] ∧
    (['8', '3'] : List Char) ≠ ['0', '1', '2', '3'] := by
  refine ⟨?_, by decide, by rfl, by decide⟩
  have h : startLex (formatInput "0123".toList) =
      Except.ok [⟨.NUM, "0123", ⟨1, 0⟩⟩, ⟨.EOF, "", ⟨2, 0⟩⟩] := by rfl
  simp only [startParseRepl]
  rw [h]
  rfl


/-- **C10** (confirmed).  Every call to `parseBlockStmt` that returns
leaves the parser's indentation depth equal to its value on entry: the
depth is incremented exactly once at block entry and decremented exactly
once before return, on every path, across any nesting of statements and
sub-blocks. -/
theorem claim10_block_preserves_indentLevel (fuel : Nat) (p : ParserSt) (b : Block)
    (p' : ParserSt) (h : parseBlockStmtF fuel p = some (b, p')) :
    p'.indentLevel = p.indentLevel :=
  (parserFns_indent fuel).2.2.2.2.2.2.2.2.2.2.2.2.1 p b p' h

/-- The token sequence of `if x:\n\ty = 2\n`, used for the C10 witness. -/
def c10tokens : List Token :=
  [⟨.IF, "if", ⟨1, 0⟩⟩, ⟨.IDENT, "x", ⟨1, 3⟩⟩, ⟨.COLON, ":", ⟨1, 4⟩⟩,
   ⟨.NL, "NEWLINE", ⟨1, 5⟩⟩, ⟨.INDENT, "INDENT", ⟨2, 1⟩⟩,
   ⟨.IDENT, "y", ⟨2, 5⟩⟩, ⟨.EQUALS, "=", ⟨2, 7⟩⟩, ⟨.NUM, "2", ⟨2, 9⟩⟩,
   ⟨.NL, "NEWLINE", ⟨2, 10⟩⟩, ⟨.EOF, "", ⟨4, 0⟩⟩]

/-- Parser state at the `parseBlockStmt` call inside `parseIfExpr` for
the C10 witness (positioned on the newline after the colon). -/
def c10entry : ParserSt :=
  { tokens := c10tokens, index := 3, statements := [], errors := [], indentLevel := 0 }

/-- The block node `parseBlockStmt` returns on `c10entry`. -/
def c10block : Block :=
  Block.mk ⟨.IDENT, "y", ⟨2, 5⟩⟩
    [Stmt.varStmt ⟨.IDENT, "y", ⟨2, 5⟩⟩
       (Expr.identE ⟨.IDENT, "y", ⟨2, 5⟩⟩ "y")
       (Expr.intLit ⟨.NUM, "2", ⟨2, 9⟩⟩ 2)]

/-- The parser state `parseBlockStmt` returns on `c10entry`. -/
def c10exit : ParserSt :=
  { tokens := c10tokens, index := 9, statements := [], errors := [], indentLevel := 0 }

/-- Witness for C10 at a concrete block parse. -/
theorem claim10_witness : c10exit.indentLevel = c10entry.indentLevel :=
  claim10_block_preserves_indentLevel 64 c10entry c10block c10exit rfl

/-- **C7** (corrected; see the counterexample above for the original
claim).  For every *canonical* decimal numeral — a non-empty digit
string with no leading zero (or the single digit `0`) — whose value fits
in a signed 64-bit integer, parsing yields an integer literal node whose
value is the numeral's decimal value, and re-serializing that node via
`strconv.Itoa` reproduces the original text exactly. -/
theorem claim7_canonical_literal_roundtrip (c0 : Char) (rest : List Char)
    (hd : ∀ c ∈ c0 :: rest, c.isDigit)
    (hcanon : c0 ≠ '0' ∨ rest = [])
    (hrange : decValue (c0 :: rest) ≤ 2 ^ 63 - 1) :
    startParseRepl (c0 :: rest) =
      some ([Stmt.exprStmt ⟨.NUM, (c0 :: rest).asString, ⟨1, 0⟩⟩
               (Expr.intLit ⟨.NUM, (c0 :: rest).asString, ⟨1, 0⟩⟩
                 ((decValue (c0 :: rest) : Int)))],
            []) ∧
    goItoa ((decValue (c0 :: rest) : Int)) = c0 :: rest := by
  constructor
  · have hfmt := formatInput_digits _ hd
    have hlex := startLex_digits (c0 :: rest) (by simp) hd
    have hv : goParseInt64 ((c0 :: rest).asString.toList) =
        some ((decValue (c0 :: rest) : Int)) :=
      goParseInt64_canonical c0 rest hd hcanon hrange
    have hp := numParse ((c0 :: rest).asString) _ hv
    simp only [startParseRepl, hfmt, hlex]
    rw [if_neg (by simp)]
    rw [show parserFuel [(⟨.NUM, (c0 :: rest).asString, ⟨1, 0⟩⟩ : Token),
          ⟨.EOF, "", ⟨2, 0⟩⟩] = 96 from rfl]
    simp only [numEntrySt, numTokens, numExitSt] at hp
    rw [hp]
  · unfold goItoa
    rw [if_neg (show ¬((decValue (c0 :: rest) : Int) < 0) from by omega)]
    rw [Int.natAbs_ofNat]
    exact natDec_decValue c0 rest hd hcanon

/-- Witness for C7 at the concrete numeral `57`. -/
theorem claim7_witness :
    startParseRepl ['5', '7'] =
      some ([Stmt.exprStmt ⟨.NUM, (['5', '7'] : List Char).asString, ⟨1, 0⟩⟩
               (Expr.intLit ⟨.NUM, (['5', '7'] : List Char).asString, ⟨1, 0⟩⟩
                 ((decValue ['5', '7'] : Int)))],
            []) ∧
    goItoa ((decValue ['5', '7'] : Int)) = ['5', '7'] :=
  claim7_canonical_literal_roundtrip '5' ['7'] (by decide) (Or.inl (by decide)) (by decide)

end Gopy